import Mathlib

/-!
Shallow embedding of the sim-circuit generic circuit engine
(src/circuit.rs): write-once circuit memory, the incremental
circuit builder, the built circuit, and the executor, together with
theorems settling the specification claims about them.

HashMap / HashSet state is modelled with association lists and
membership lists: only membership and key-lookup are observable in the
source, and the claims never depend on hash iteration order.
-/

namespace SimCircuit

/-- Association-list lookup, modelling HashMap.get. -/
def alookup {β : Type} : List (Nat × β) → Nat → Option β
  | [], _ => none
  | p :: l, k => if p.1 = k then some p.2 else alookup l k

/-- Set insertion, modelling HashSet.insert (membership is all that matters). -/
def insertSet (s : List Nat) (x : Nat) : List Nat :=
  if x ∈ s then s else s ++ [x]

/-- Maximum of a list of naturals, modelling Iterator::max on HashMap values. -/
def listMax : List Nat → Option Nat
  | [] => none
  | a :: l =>
    some (match listMax l with
          | none => a
          | some m => max a m)

/-- Errors of the circuit memory (CircuitMemoryError in src/circuit.rs). -/
inductive CircuitMemoryError where
  | ReadError (index : Nat)
  | UninitializedSlot (index : Nat)
  | WriteError (index : Nat)
  | RewriteAttempt (index : Nat)
  deriving DecidableEq, Repr

/-- Write-once circuit memory (CircuitMemory in src/circuit.rs): a vector of
optional slots. -/
structure CircuitMemory (α : Type) where
  wires : List (Option α)
  deriving DecidableEq, Repr

/-- CircuitMemory::new(size): size empty slots. -/
def CircuitMemory.new (α : Type) (size : Nat) : CircuitMemory α :=
  ⟨List.replicate size none⟩

/-- CircuitMemory::read: value at the index, UninitializedSlot if the slot is
empty, ReadError if out of bounds. -/
def CircuitMemory.read {α : Type} (m : CircuitMemory α) (index : Nat) :
    Except CircuitMemoryError α :=
  match m.wires[index]? with
  | some (some value) => .ok value
  | some none => .error (.UninitializedSlot index)
  | none => .error (.ReadError index)

/-- CircuitMemory::write: stores the value in an empty in-bounds slot;
RewriteAttempt if the slot is occupied, WriteError if out of bounds.  The
returned memory is the state after the call (unchanged on error, matching
the untouched &mut self of the source). -/
def CircuitMemory.write {α : Type} (m : CircuitMemory α) (index : Nat) (value : α) :
    CircuitMemory α × Option CircuitMemoryError :=
  match m.wires[index]? with
  | some slot =>
    if slot.isSome then (m, some (.RewriteAttempt index))
    else (⟨m.wires.set index (some value)⟩, none)
  | none => (m, some (.WriteError index))

/-- A component (the Component + Executable traits of src/model.rs): ordered
input and output wire ids, and an execute action on memory returning the
memory state after the call and a success flag (the concrete error type of a
component is discarded by the circuit, which only observes failure). -/
structure Gate (α : Type) where
  inputs : List Nat
  outputs : List Nat
  exec : CircuitMemory α → CircuitMemory α × Bool

/-- Builder errors (CircuitBuilderError in src/circuit.rs). -/
inductive CircuitBuilderError where
  | EmptyBuilder
  | DisconnectedComponent
  | TopologicalOrderError (id : Nat)
  | OutputsConnection (id : Nat)
  | OutputIsACircuitInput (id : Nat)
  | UnusedInputs (ids : List Nat)
  deriving DecidableEq, Repr

/-- Circuit builder state (CircuitBuilder in src/circuit.rs). -/
structure CircuitBuilder (α : Type) where
  components : List (Gate α)
  circuit_inputs : List Nat
  component_inputs : List Nat
  component_outputs : List Nat
  index_map : List (Nat × Nat)
  next_index : Nat

/-- CircuitBuilder::new. -/
def CircuitBuilder.new (α : Type) : CircuitBuilder α :=
  ⟨[], [], [], [], [], 0⟩

/-- CircuitBuilder::add_inputs: appends the ids to the declared circuit
inputs, with no deduplication or validation. -/
def CircuitBuilder.add_inputs {α : Type} (b : CircuitBuilder α) (l : List Nat) :
    CircuitBuilder α :=
  { b with circuit_inputs := b.circuit_inputs ++ l }

/-- index_map.entry(id).or_insert_with: assigns the next unused internal
index to a wire id not seen before; leaves the map unchanged otherwise. -/
def mapEntry {α : Type} (b : CircuitBuilder α) (id : Nat) : CircuitBuilder α :=
  if (alookup b.index_map id).isSome then b
  else { b with
          index_map := b.index_map ++ [(id, b.next_index)],
          next_index := b.next_index + 1 }

/-- The input loop of CircuitBuilder::add_component: each input must already
be a recorded component output or a declared circuit input; on success it is
recorded in the seen-input set and the index map.  Returns the builder state
reached (mutations before a failure persist) and the error, if any. -/
def procInputs {α : Type} (b : CircuitBuilder α) :
    List Nat → CircuitBuilder α × Option CircuitBuilderError
  | [] => (b, none)
  | i :: rest =>
    if i ∉ b.component_outputs ∧ i ∉ b.circuit_inputs then
      (b, some (.TopologicalOrderError i))
    else
      procInputs (mapEntry { b with component_inputs := insertSet b.component_inputs i } i) rest

/-- The output loop of CircuitBuilder::add_component: each output must not be
a declared circuit input nor an already recorded component output; on success
it is recorded in the seen-output set and the index map. -/
def procOutputs {α : Type} (b : CircuitBuilder α) :
    List Nat → CircuitBuilder α × Option CircuitBuilderError
  | [] => (b, none)
  | o :: rest =>
    if o ∈ b.circuit_inputs then
      (b, some (.OutputIsACircuitInput o))
    else if o ∈ b.component_outputs then
      (b, some (.OutputsConnection o))
    else
      procOutputs (mapEntry { b with component_outputs := insertSet b.component_outputs o } o) rest

/-- CircuitBuilder::add_component: rejects components with empty input or
output lists, then validates and records inputs, then outputs, and finally
appends the component.  The returned builder is the state after the call:
on error the component is not appended but earlier mutations persist. -/
def CircuitBuilder.add_component {α : Type} (b : CircuitBuilder α) (c : Gate α) :
    CircuitBuilder α × Option CircuitBuilderError :=
  if c.inputs.isEmpty || c.outputs.isEmpty then
    (b, some .DisconnectedComponent)
  else
    match procInputs b c.inputs with
    | (b1, some e) => (b1, some e)
    | (b1, none) =>
      match procOutputs b1 c.outputs with
      | (b2, some e) => (b2, some e)
      | (b2, none) => ({ b2 with components := b2.components ++ [c] }, none)

/-- A built circuit (GenericCircuit in src/circuit.rs). -/
structure GenericCircuit (α : Type) where
  components : List (Gate α)
  inputs : List Nat
  outputs : List Nat
  memory_map : List (Nat × Nat)

/-- CircuitBuilder::build: rejects an empty builder, rejects declared inputs
never consumed by a component, and computes the circuit outputs as the
component outputs never consumed as component inputs. -/
def CircuitBuilder.build {α : Type} (b : CircuitBuilder α) :
    Except CircuitBuilderError (GenericCircuit α) :=
  if b.components.isEmpty then
    .error .EmptyBuilder
  else if !(b.circuit_inputs.filter (fun i => !decide (i ∈ b.component_inputs))).isEmpty then
    .error (.UnusedInputs (b.circuit_inputs.filter (fun i => !decide (i ∈ b.component_inputs))))
  else
    .ok ⟨b.components, b.circuit_inputs,
         b.component_outputs.filter (fun o => !decide (o ∈ b.component_inputs)),
         b.index_map⟩

/-- GenericCircuit::memory_size: one plus the maximum internal index in the
memory map, or zero for an empty map. -/
def GenericCircuit.memory_size {α : Type} (c : GenericCircuit α) : Nat :=
  match listMax (c.memory_map.map Prod.snd) with
  | some m => m + 1
  | none => 0

/-- Execution errors (CircuitExecutionError in src/circuit.rs). -/
inductive CircuitExecutionError where
  | ComponentExecutionError
  | InputNotFoundError (id : Nat)
  | InputLengthMismatch
  | MemoryMappingError (id : Nat)
  | MemoryError (e : CircuitMemoryError)
  | UndefinedOutput (id : Nat)
  deriving DecidableEq, Repr

/-- GenericCircuit::execute: runs every component in order, converting any
component failure into ComponentExecutionError.  Returns the memory state
reached and the error, if any. -/
def execComponents {α : Type} :
    List (Gate α) → CircuitMemory α → CircuitMemory α × Option CircuitExecutionError
  | [], mem => (mem, none)
  | g :: rest, mem =>
    match g.exec mem with
    | (mem1, true) => execComponents rest mem1
    | (mem1, false) => (mem1, some .ComponentExecutionError)

/-- The input-binding loop of GenericCircuitExecutor::run: for each declared
circuit input, looks up its value in the binding and its internal index in
the memory map, and writes the value. -/
def writeInputs {α : Type} (c : GenericCircuit α) (binding : List (Nat × α)) :
    CircuitMemory α → List Nat → CircuitMemory α × Option CircuitExecutionError
  | mem, [] => (mem, none)
  | mem, id :: rest =>
    match alookup binding id with
    | some value =>
      match alookup c.memory_map id with
      | some idx =>
        match mem.write idx value with
        | (mem1, none) => writeInputs c binding mem1 rest
        | (mem1, some e) => (mem1, some (.MemoryError e))
      | none => (mem, some (.MemoryMappingError id))
    | none => (mem, some (.InputNotFoundError id))

/-- The output-collection loop of GenericCircuitExecutor::run: for each
declared circuit output, looks up its internal index (UndefinedOutput if
absent from the memory map) and reads the slot (propagating the memory
error if the read fails). -/
def readOutputs {α : Type} (c : GenericCircuit α) (mem : CircuitMemory α) :
    List Nat → Except CircuitExecutionError (List (Nat × α))
  | [] => .ok []
  | id :: rest =>
    match alookup c.memory_map id with
    | some idx =>
      match mem.read idx with
      | .ok value =>
        match readOutputs c mem rest with
        | .ok out => .ok ((id, value) :: out)
        | .error e => .error e
      | .error e => .error (.MemoryError e)
    | none => .error (.UndefinedOutput id)

/-- Executor over one circuit and one memory (GenericCircuitExecutor). -/
structure GenericCircuitExecutor (α : Type) where
  circuit : GenericCircuit α
  memory : CircuitMemory α

/-- GenericCircuitExecutor::new: allocates a fresh memory of memory_size
empty slots. -/
def GenericCircuitExecutor.new {α : Type} (c : GenericCircuit α) :
    GenericCircuitExecutor α :=
  ⟨c, CircuitMemory.new α c.memory_size⟩

/-- GenericCircuitExecutor::run: checks the binding size, writes the inputs,
executes the circuit, and collects the outputs.  Returns the result and the
executor state after the call (its memory reflects all writes performed). -/
def GenericCircuitExecutor.run {α : Type} (ex : GenericCircuitExecutor α)
    (binding : List (Nat × α)) :
    Except CircuitExecutionError (List (Nat × α)) × GenericCircuitExecutor α :=
  if binding.length ≠ ex.circuit.inputs.length then
    (.error .InputLengthMismatch, ex)
  else
    match writeInputs ex.circuit binding ex.memory ex.circuit.inputs with
    | (mem1, some e) => (.error e, { ex with memory := mem1 })
    | (mem1, none) =>
      match execComponents ex.circuit.components mem1 with
      | (mem2, some e) => (.error e, { ex with memory := mem2 })
      | (mem2, none) =>
        match readOutputs ex.circuit mem2 ex.circuit.outputs with
        | .ok out => (.ok out, { ex with memory := mem2 })
        | .error e => (.error e, { ex with memory := mem2 })

/-- One builder call: add_inputs or add_component. -/
inductive Op (α : Type) where
  | addInputs (l : List Nat)
  | addComponent (c : Gate α)

/-- Runs a sequence of builder calls, returning the final builder state and
whether every add_component call succeeded (the builder is a &mut receiver
in the source, so later calls proceed on the state an error left behind). -/
def runOps {α : Type} (b : CircuitBuilder α) :
    List (Op α) → CircuitBuilder α × Bool
  | [] => (b, true)
  | .addInputs l :: ops => runOps (b.add_inputs l) ops
  | .addComponent c :: ops =>
    ((runOps (b.add_component c).1 ops).1,
     (b.add_component c).2.isNone && (runOps (b.add_component c).1 ops).2)

/-- Whether build succeeds on a builder state. -/
def buildOk {α : Type} (b : CircuitBuilder α) : Bool :=
  match b.build with
  | .ok _ => true
  | .error _ => false

/-- Whether a whole builder session succeeds: every add_component call and
the final build. -/
def pipelineOk {α : Type} (ops : List (Op α)) : Bool :=
  (runOps (CircuitBuilder.new α) ops).2 &&
    buildOk (runOps (CircuitBuilder.new α) ops).1

/-- Modelled from the spec claim: output ids are fresh when none is a
declared circuit input and none repeats an earlier output (outputs of
earlier components or earlier outputs of the same component). -/
def outputsFresh (decl outs : List Nat) : List Nat → Bool
  | [] => true
  | o :: rest =>
    !decide (o ∈ decl) && !decide (o ∈ outs) && outputsFresh decl (outs ++ [o]) rest

/-- Modelled from the spec claim: every component has nonempty inputs and
outputs, each input is a previously declared circuit input or an output of a
strictly earlier component, and each output is fresh, tracking declarations
and outputs through the call sequence. -/
def specOkFrom {α : Type} (decl outs : List Nat) : List (Op α) → Bool
  | [] => true
  | .addInputs l :: ops => specOkFrom (decl ++ l) outs ops
  | .addComponent c :: ops =>
    !c.inputs.isEmpty && !c.outputs.isEmpty &&
    c.inputs.all (fun i => decide (i ∈ outs) || decide (i ∈ decl)) &&
    outputsFresh decl outs c.outputs &&
    specOkFrom decl (outs ++ c.outputs) ops

/-- All circuit-input ids declared across a call sequence, in order and with
multiplicity. -/
def declaredOf {α : Type} : List (Op α) → List Nat
  | [] => []
  | .addInputs l :: ops => l ++ declaredOf ops
  | .addComponent _ :: ops => declaredOf ops

/-- All components passed to add_component across a call sequence. -/
def gatesOf {α : Type} : List (Op α) → List (Gate α)
  | [] => []
  | .addInputs _ :: ops => gatesOf ops
  | .addComponent c :: ops => c :: gatesOf ops

/-- All component-input ids across a call sequence. -/
def compInputsOf {α : Type} (ops : List (Op α)) : List Nat :=
  (gatesOf ops).foldr (fun g acc => g.inputs ++ acc) []

/-- Modelled from the spec claim, amended: the component conditions hold,
at least one component was added, and every declared circuit input is
consumed by some component. -/
def specBuildOk {α : Type} (ops : List (Op α)) : Bool :=
  specOkFrom [] [] ops && !(gatesOf ops).isEmpty &&
  (declaredOf ops).all (fun d => decide (d ∈ compInputsOf ops))

/-- The index-map invariant maintained by the builder: values are exactly
0,1,...,n-1 in assignment order, keys are distinct, and the next free index
is the map size. -/
def IndexInv {α : Type} (b : CircuitBuilder α) : Prop :=
  b.index_map.map Prod.snd = List.range b.index_map.length ∧
  (b.index_map.map Prod.fst).Nodup ∧
  b.next_index = b.index_map.length

/-- A component whose execute action never erases an already written memory
slot.  Every component written against the Memory trait of src/model.rs has
this property, since read never mutates and write rejects occupied slots. -/
def GateMonotone {α : Type} (g : Gate α) : Prop :=
  ∀ (mem : CircuitMemory α) (i : Nat) (w : α),
    mem.wires[i]? = some (some w) → ((g.exec mem).1).wires[i]? = some (some w)

/-- A component body that touches nothing and succeeds (expressible in the
source as an execute method that returns Ok without accessing memory). -/
def passExec : CircuitMemory Bool → CircuitMemory Bool × Bool :=
  fun m => (m, true)

/-- A component body that writes the constant true to memory slot 1 through
the write-once API. -/
def writeOneExec : CircuitMemory Bool → CircuitMemory Bool × Bool :=
  fun m =>
    match m.write 1 true with
    | (m1, none) => (m1, true)
    | (m1, some _) => (m1, false)

/-- Concrete gate from wire 5 to wire 7. -/
def gate57 : Gate Bool := ⟨[5], [7], passExec⟩

/-- Concrete op sequence: declare input 5, add gate57, then declare input 6
which no component ever consumes. -/
def cexOps : List (Op Bool) :=
  [.addInputs [5], .addComponent gate57, .addInputs [6]]

/-- Concrete gate whose output list repeats the circuit input 0 after the
fresh id 1. -/
def gateBadOut : Gate Bool := ⟨[0], [1, 0], passExec⟩

/-- Concrete gate consuming wire 1 and producing wire 2. -/
def gate12 : Gate Bool := ⟨[1], [2], passExec⟩

/-- Concrete gate whose second input 9 is never driven. -/
def gateBadIn : Gate Bool := ⟨[0, 9], [1], passExec⟩

/-- Concrete gate from wire 0 to wire 1 whose body writes slot 1. -/
def gate01 : Gate Bool := ⟨[0], [1], writeOneExec⟩

/-- Concrete circuit with one declared input 0 (slot 0), one component
writing slot 1, and circuit output 1. -/
def circ01 : GenericCircuit Bool := ⟨[gate01], [0], [1], [(0, 0), (1, 1)]⟩

/-- Concrete circuit whose declared output 5 is mapped to slot 0 that no
component ever writes. -/
def circUnwritten : GenericCircuit Bool := ⟨[⟨[9], [5], passExec⟩], [], [5], [(5, 0)]⟩

/-- Concrete circuit with no inputs, no outputs and no components. -/
def circEmpty : GenericCircuit Bool := ⟨[], [], [], []⟩

/-- Concrete builder with the single declared circuit input 0. -/
def builder0 : CircuitBuilder Bool := (CircuitBuilder.new Bool).add_inputs [0]

/-- Builder state after gateBadOut was rejected: its output 1 was recorded
before output 0 failed the circuit-input check, and nothing was appended. -/
def builder1 : CircuitBuilder Bool := (builder0.add_component gateBadOut).1

/-- Builder state after gateBadIn was rejected during input checking: its
output 1 was never recorded, and nothing was appended. -/
def builder2 : CircuitBuilder Bool := (builder0.add_component gateBadIn).1

/-- Concrete op sequence declaring input 5 and adding gate57, which builds. -/
def okOps : List (Op Bool) := [.addInputs [5], .addComponent gate57]

/-- The circuit okOps builds: one component, input 5 at slot 0, output 7 at
slot 1. -/
def okCircuit : GenericCircuit Bool := ⟨[gate57], [5], [7], [(5, 0), (7, 1)]⟩

/-- Concrete gate from wire 0 to wire 1 with a no-op body. -/
def gateZeroOne : Gate Bool := ⟨[0], [1], passExec⟩

/-- Concrete op sequence registering the same input id 0 twice. -/
def dupOps : List (Op Bool) := [.addInputs [0, 0], .addComponent gateZeroOne]

/-- The circuit dupOps builds: its declared input list is the duplicated
[0, 0]. -/
def dupCircuit : GenericCircuit Bool := ⟨[gateZeroOne], [0, 0], [1], [(0, 0), (1, 1)]⟩

section Lemmas

variable {α : Type}

theorem mem_insertSet {s : List Nat} {x y : Nat} :
    x ∈ insertSet s y ↔ x ∈ s ∨ x = y := by
  unfold insertSet
  split
  · rename_i h
    constructor
    · exact Or.inl
    · rintro (hx | rfl)
      · exact hx
      · exact h
  · simp [List.mem_append]

theorem alookup_isSome_iff {β : Type} {l : List (Nat × β)} {k : Nat} :
    (alookup l k).isSome ↔ k ∈ l.map Prod.fst := by
  induction l with
  | nil => simp [alookup]
  | cons p l ih =>
    simp only [alookup, List.map_cons, List.mem_cons]
    split
    · rename_i h
      simp [h.symm]
    · rename_i h
      rw [ih]
      constructor
      · exact Or.inr
      · rintro (he | hm)
        · exact absurd he.symm h
        · exact hm

theorem alookup_append_singleton {β : Type} {l : List (Nat × β)} {k k' : Nat} {v : β} :
    alookup (l ++ [(k, v)]) k' =
      match alookup l k' with
      | some w => some w
      | none => if k = k' then some v else none := by
  induction l with
  | nil => simp [alookup]
  | cons p l ih =>
    simp only [List.cons_append, alookup]
    split
    · rfl
    · exact ih

theorem mapEntry_fields (b : CircuitBuilder α) (id : Nat) :
    (mapEntry b id).components = b.components ∧
    (mapEntry b id).circuit_inputs = b.circuit_inputs ∧
    (mapEntry b id).component_inputs = b.component_inputs ∧
    (mapEntry b id).component_outputs = b.component_outputs := by
  unfold mapEntry
  split <;> exact ⟨rfl, rfl, rfl, rfl⟩

theorem mapEntry_lookup_self (b : CircuitBuilder α) (id : Nat) :
    (alookup (mapEntry b id).index_map id).isSome := by
  unfold mapEntry
  split
  · rename_i h
    exact h
  · rename_i h
    simp only [alookup_append_singleton]
    cases hl : alookup b.index_map id with
    | some w => simp
    | none => simp

theorem mapEntry_lookup_mono (b : CircuitBuilder α) (id k : Nat)
    (h : (alookup b.index_map k).isSome) :
    (alookup (mapEntry b id).index_map k).isSome := by
  unfold mapEntry
  split
  · exact h
  · simp only [alookup_append_singleton]
    cases hl : alookup b.index_map k with
    | some w => simp
    | none => rw [hl] at h; simp at h

theorem mapEntry_indexInv (b : CircuitBuilder α) (id : Nat)
    (h : IndexInv b) : IndexInv (mapEntry b id) := by
  obtain ⟨hvals, hkeys, hnext⟩ := h
  unfold mapEntry
  split
  · exact ⟨hvals, hkeys, hnext⟩
  · rename_i hnone
    refine ⟨?_, ?_, ?_⟩
    · simp only [List.map_append, List.length_append, List.map_cons, List.map_nil,
        List.length_cons, List.length_nil]
      rw [hvals, hnext]
      have : b.index_map.length + (0 + 1) = b.index_map.length + 1 := by omega
      rw [this, List.range_succ]
    · simp only [List.map_append, List.map_cons, List.map_nil]
      have hid : id ∉ b.index_map.map Prod.fst := by
        intro hmem
        rw [← alookup_isSome_iff] at hmem
        exact hnone hmem
      rw [List.nodup_append]
      refine ⟨hkeys, List.nodup_singleton id, ?_⟩
      intro x hx hx2
      rw [List.mem_singleton] at hx2
      subst hx2
      exact hid hx
    · simp only [List.length_append, List.length_cons, List.length_nil]
      omega

theorem procInputs_fields (l : List Nat) (b : CircuitBuilder α) :
    (procInputs b l).1.components = b.components ∧
    (procInputs b l).1.circuit_inputs = b.circuit_inputs ∧
    (procInputs b l).1.component_outputs = b.component_outputs := by
  induction l generalizing b with
  | nil => exact ⟨rfl, rfl, rfl⟩
  | cons i rest ih =>
    rw [procInputs]
    split
    · exact ⟨rfl, rfl, rfl⟩
    · obtain ⟨h1, h2, h3⟩ := ih (mapEntry { b with component_inputs := insertSet b.component_inputs i } i)
      obtain ⟨m1, m2, m3, m4⟩ := mapEntry_fields { b with component_inputs := insertSet b.component_inputs i } i
      exact ⟨by rw [h1, m1], by rw [h2, m2], by rw [h3, m4]⟩

theorem procInputs_mono (l : List Nat) (b : CircuitBuilder α) (x : Nat) :
    (x ∈ b.component_inputs → x ∈ (procInputs b l).1.component_inputs) ∧
    ((alookup b.index_map x).isSome → (alookup (procInputs b l).1.index_map x).isSome) := by
  induction l generalizing b with
  | nil => exact ⟨id, id⟩
  | cons i rest ih =>
    rw [procInputs]
    split
    · exact ⟨id, id⟩
    · set bmid := { b with component_inputs := insertSet b.component_inputs i } with hbmid
      obtain ⟨ih1, ih2⟩ := ih (mapEntry bmid i)
      obtain ⟨m1, m2, m3, m4⟩ := mapEntry_fields bmid i
      constructor
      · intro hx
        apply ih1
        rw [m3]
        exact mem_insertSet.mpr (Or.inl hx)
      · intro hx
        exact ih2 (mapEntry_lookup_mono bmid i x hx)

theorem procInputs_none_iff (l : List Nat) (b : CircuitBuilder α) :
    (procInputs b l).2 = none ↔
      ∀ i ∈ l, i ∈ b.component_outputs ∨ i ∈ b.circuit_inputs := by
  induction l generalizing b with
  | nil => simp [procInputs]
  | cons i rest ih =>
    rw [procInputs]
    split
    · rename_i h
      simp only [List.mem_cons]
      constructor
      · intro he
        simp at he
      · intro hall
        rcases hall i (Or.inl rfl) with hmem | hmem
        · exact absurd hmem h.1
        · exact absurd hmem h.2
    · rename_i h
      rw [not_and_or, not_not, not_not] at h
      set bmid := { b with component_inputs := insertSet b.component_inputs i } with hbmid
      obtain ⟨m1, m2, m3, m4⟩ := mapEntry_fields bmid i
      rw [ih (mapEntry bmid i)]
      constructor
      · intro hall j hj
        rcases List.mem_cons.mp hj with rfl | hj
        · exact h
        · have := hall j hj
          rw [m4, m2] at this
          exact this
      · intro hall j hj
        rw [m4, m2]
        exact hall j (List.mem_cons.mpr (Or.inr hj))

theorem procInputs_ok_state (l : List Nat) (b : CircuitBuilder α)
    (h : ∀ i ∈ l, i ∈ b.component_outputs ∨ i ∈ b.circuit_inputs) :
    (∀ x, x ∈ (procInputs b l).1.component_inputs ↔ x ∈ b.component_inputs ∨ x ∈ l) ∧
    (∀ x, (alookup (procInputs b l).1.index_map x).isSome ↔
      (alookup b.index_map x).isSome ∨ x ∈ l) := by
  induction l generalizing b with
  | nil => simp [procInputs]
  | cons i rest ih =>
    rw [procInputs]
    split
    · rename_i hc
      rcases h i (List.mem_cons_self i rest) with hmem | hmem
      · exact absurd hmem hc.1
      · exact absurd hmem hc.2
    · set bmid := { b with component_inputs := insertSet b.component_inputs i } with hbmid
      obtain ⟨m1, m2, m3, m4⟩ := mapEntry_fields bmid i
      have hrest : ∀ j ∈ rest, j ∈ (mapEntry bmid i).component_outputs ∨
          j ∈ (mapEntry bmid i).circuit_inputs := by
        intro j hj
        rw [m4, m2]
        exact h j (List.mem_cons.mpr (Or.inr hj))
      obtain ⟨ih1, ih2⟩ := ih (mapEntry bmid i) hrest
      constructor
      · intro x
        rw [ih1 x, m3]
        show x ∈ insertSet b.component_inputs i ∨ x ∈ rest ↔ _
        rw [mem_insertSet]
        simp only [List.mem_cons]
        tauto
      · intro x
        rw [ih2 x]
        constructor
        · rintro (hx | hx)
          · by_cases hxi : x = i
            · subst hxi
              exact Or.inr (List.mem_cons_self x rest)
            · left
              unfold mapEntry at hx
              split at hx
              · exact hx
              · rw [alookup_append_singleton] at hx
                cases hl : alookup bmid.index_map x with
                | some w => rw [show bmid.index_map = b.index_map from rfl] at hl; simp [hl]
                | none =>
                  rw [hl] at hx
                  simp only [hl] at hx
                  split at hx
                  · rename_i he
                    exact absurd he.symm hxi
                  · simp at hx
          · exact Or.inr (List.mem_cons.mpr (Or.inr hx))
        · rintro (hx | hx)
          · exact Or.inl (mapEntry_lookup_mono bmid i x hx)
          · rcases List.mem_cons.mp hx with rfl | hx
            · exact Or.inl (mapEntry_lookup_self bmid x)
            · exact Or.inr hx

theorem procInputs_indexInv (l : List Nat) (b : CircuitBuilder α)
    (h : IndexInv b) : IndexInv (procInputs b l).1 := by
  induction l generalizing b with
  | nil => exact h
  | cons i rest ih =>
    rw [procInputs]
    split
    · exact h
    · exact ih _ (mapEntry_indexInv _ i h)

theorem procInputs_fail (pre : List Nat) (i : Nat) (post : List Nat)
    (b : CircuitBuilder α)
    (hpre : ∀ j ∈ pre, j ∈ b.component_outputs ∨ j ∈ b.circuit_inputs)
    (hi1 : i ∉ b.component_outputs) (hi2 : i ∉ b.circuit_inputs) :
    (procInputs b (pre ++ i :: post)).2 = some (.TopologicalOrderError i) ∧
    ∀ j ∈ pre, j ∈ (procInputs b (pre ++ i :: post)).1.component_inputs ∧
      (alookup (procInputs b (pre ++ i :: post)).1.index_map j).isSome := by
  induction pre generalizing b with
  | nil =>
    rw [List.nil_append, procInputs]
    split
    · simp
    · rename_i hc
      exact absurd ⟨hi1, hi2⟩ hc
  | cons j pre ih =>
    rw [List.cons_append, procInputs]
    split
    · rename_i hc
      rcases hpre j (List.mem_cons_self j pre) with hmem | hmem
      · exact absurd hmem hc.1
      · exact absurd hmem hc.2
    · set bmid := { b with component_inputs := insertSet b.component_inputs j } with hbmid
      obtain ⟨m1, m2, m3, m4⟩ := mapEntry_fields bmid j
      have hpre' : ∀ j' ∈ pre, j' ∈ (mapEntry bmid j).component_outputs ∨
          j' ∈ (mapEntry bmid j).circuit_inputs := by
        intro j' hj'
        rw [m4, m2]
        exact hpre j' (List.mem_cons.mpr (Or.inr hj'))
      have hi1' : i ∉ (mapEntry bmid j).component_outputs := by rw [m4]; exact hi1
      have hi2' : i ∉ (mapEntry bmid j).circuit_inputs := by rw [m2]; exact hi2
      obtain ⟨ihe, ihr⟩ := ih (mapEntry bmid j) hpre' hi1' hi2'
      refine ⟨ihe, ?_⟩
      intro j' hj'
      rcases List.mem_cons.mp hj' with rfl | hj'
      · refine ⟨?_, ?_⟩
        · apply (procInputs_mono _ _ _).1
          rw [m3]
          exact mem_insertSet.mpr (Or.inr rfl)
        · exact (procInputs_mono _ _ _).2 (mapEntry_lookup_self bmid _)
      · exact ihr j' hj'

theorem mapEntry_lookup_iff (b : CircuitBuilder α) (id x : Nat) :
    (alookup (mapEntry b id).index_map x).isSome ↔
      (alookup b.index_map x).isSome ∨ x = id := by
  unfold mapEntry
  split
  · rename_i h
    constructor
    · exact Or.inl
    · rintro (hx | rfl)
      · exact hx
      · exact h
  · simp only [alookup_append_singleton]
    cases hl : alookup b.index_map x with
    | some w => simp
    | none =>
      simp only [Option.isSome_none, Bool.false_eq_true, false_or]
      split
      · rename_i he
        simp [he.symm]
      · rename_i he
        constructor
        · intro hx
          simp at hx
        · intro hx
          exact absurd hx.symm he

theorem procOutputs_fields (l : List Nat) (b : CircuitBuilder α) :
    (procOutputs b l).1.components = b.components ∧
    (procOutputs b l).1.circuit_inputs = b.circuit_inputs ∧
    (procOutputs b l).1.component_inputs = b.component_inputs := by
  induction l generalizing b with
  | nil => exact ⟨rfl, rfl, rfl⟩
  | cons o rest ih =>
    rw [procOutputs]
    split
    · exact ⟨rfl, rfl, rfl⟩
    split
    · exact ⟨rfl, rfl, rfl⟩
    · obtain ⟨h1, h2, h3⟩ := ih (mapEntry { b with component_outputs := insertSet b.component_outputs o } o)
      obtain ⟨m1, m2, m3, m4⟩ := mapEntry_fields { b with component_outputs := insertSet b.component_outputs o } o
      exact ⟨by rw [h1, m1], by rw [h2, m2], by rw [h3, m3]⟩

theorem procOutputs_mono (l : List Nat) (b : CircuitBuilder α) (x : Nat) :
    (x ∈ b.component_outputs → x ∈ (procOutputs b l).1.component_outputs) ∧
    ((alookup b.index_map x).isSome → (alookup (procOutputs b l).1.index_map x).isSome) := by
  induction l generalizing b with
  | nil => exact ⟨id, id⟩
  | cons o rest ih =>
    rw [procOutputs]
    split
    · exact ⟨id, id⟩
    split
    · exact ⟨id, id⟩
    · set bmid := { b with component_outputs := insertSet b.component_outputs o } with hbmid
      obtain ⟨ih1, ih2⟩ := ih (mapEntry bmid o)
      obtain ⟨m1, m2, m3, m4⟩ := mapEntry_fields bmid o
      constructor
      · intro hx
        apply ih1
        rw [m4]
        exact mem_insertSet.mpr (Or.inl hx)
      · intro hx
        exact ih2 (mapEntry_lookup_mono bmid o x hx)

theorem procOutputs_none_iff (l : List Nat) (b : CircuitBuilder α) (outs : List Nat)
    (hset : ∀ x, x ∈ b.component_outputs ↔ x ∈ outs) :
    ((procOutputs b l).2 = none ↔ outputsFresh b.circuit_inputs outs l = true) := by
  induction l generalizing b outs with
  | nil => simp [procOutputs, outputsFresh]
  | cons o rest ih =>
    rw [procOutputs, outputsFresh]
    split
    · rename_i h
      simp [h]
    split
    · rename_i hnc h
      simp [(hset o).mp h]
    · rename_i hnc hno
      set bmid := { b with component_outputs := insertSet b.component_outputs o } with hbmid
      obtain ⟨m1, m2, m3, m4⟩ := mapEntry_fields bmid o
      have hset' : ∀ x, x ∈ (mapEntry bmid o).component_outputs ↔ x ∈ outs ++ [o] := by
        intro x
        rw [m4]
        show x ∈ insertSet b.component_outputs o ↔ _
        rw [mem_insertSet, List.mem_append, List.mem_singleton, hset x]
      rw [ih (mapEntry bmid o) (outs ++ [o]) hset', m2]
      have ho : o ∉ outs := fun hx => hno ((hset o).mpr hx)
      simp [hnc, ho]

theorem procOutputs_ok_state (l : List Nat) (b : CircuitBuilder α)
    (h : (procOutputs b l).2 = none) :
    (∀ x, x ∈ (procOutputs b l).1.component_outputs ↔ x ∈ b.component_outputs ∨ x ∈ l) ∧
    (∀ x, (alookup (procOutputs b l).1.index_map x).isSome ↔
      (alookup b.index_map x).isSome ∨ x ∈ l) := by
  induction l generalizing b with
  | nil => simp [procOutputs]
  | cons o rest ih =>
    rw [procOutputs] at h ⊢
    by_cases hnc : o ∈ b.circuit_inputs
    · rw [if_pos hnc] at h
      simp at h
    rw [if_neg hnc] at h ⊢
    by_cases hno : o ∈ b.component_outputs
    · rw [if_pos hno] at h
      simp at h
    rw [if_neg hno] at h ⊢
    · set bmid := { b with component_outputs := insertSet b.component_outputs o } with hbmid
      obtain ⟨ih1, ih2⟩ := ih (mapEntry bmid o) h
      obtain ⟨m1, m2, m3, m4⟩ := mapEntry_fields bmid o
      constructor
      · intro x
        rw [ih1 x, m4]
        show x ∈ insertSet b.component_outputs o ∨ x ∈ rest ↔ _
        rw [mem_insertSet]
        simp only [List.mem_cons]
        tauto
      · intro x
        rw [ih2 x, mapEntry_lookup_iff]
        simp only [List.mem_cons]
        tauto

theorem procOutputs_indexInv (l : List Nat) (b : CircuitBuilder α)
    (h : IndexInv b) : IndexInv (procOutputs b l).1 := by
  induction l generalizing b with
  | nil => exact h
  | cons o rest ih =>
    rw [procOutputs]
    split
    · exact h
    split
    · exact h
    · exact ih _ (mapEntry_indexInv _ o h)

theorem procOutputs_fail (pre : List Nat) (o : Nat) (post : List Nat)
    (b : CircuitBuilder α)
    (hpre : ∀ p ∈ pre, p ∉ b.circuit_inputs ∧ p ∉ b.component_outputs)
    (hnd : pre.Nodup) :
    ((o ∈ b.circuit_inputs →
        (procOutputs b (pre ++ o :: post)).2 = some (.OutputIsACircuitInput o)) ∧
      (o ∉ b.circuit_inputs → o ∈ b.component_outputs ∨ o ∈ pre →
        (procOutputs b (pre ++ o :: post)).2 = some (.OutputsConnection o))) ∧
    ∀ p ∈ pre, p ∈ (procOutputs b (pre ++ o :: post)).1.component_outputs ∧
      (alookup (procOutputs b (pre ++ o :: post)).1.index_map p).isSome := by
  induction pre generalizing b with
  | nil =>
    rw [List.nil_append, procOutputs]
    split
    · rename_i h
      refine ⟨⟨fun _ => rfl, fun hn _ => absurd h hn⟩, by simp⟩
    split
    · rename_i hnc h
      refine ⟨⟨fun hc => absurd hc hnc, fun _ _ => rfl⟩, by simp⟩
    · rename_i hnc hno
      refine ⟨⟨fun hc => absurd hc hnc, fun _ hmem => ?_⟩, by simp⟩
      rcases hmem with hmem | hmem
      · exact absurd hmem hno
      · simp at hmem
  | cons p pre ih =>
    obtain ⟨hp1, hp2⟩ := hpre p (List.mem_cons_self p pre)
    rw [List.cons_append, procOutputs, if_neg hp1, if_neg hp2]
    · set bmid := { b with component_outputs := insertSet b.component_outputs p } with hbmid
      obtain ⟨m1, m2, m3, m4⟩ := mapEntry_fields bmid p
      have hpnotin : p ∉ pre := (List.nodup_cons.mp hnd).1
      have hpre' : ∀ q ∈ pre, q ∉ (mapEntry bmid p).circuit_inputs ∧
          q ∉ (mapEntry bmid p).component_outputs := by
        intro q hq
        obtain ⟨hq1, hq2⟩ := hpre q (List.mem_cons.mpr (Or.inr hq))
        refine ⟨by rw [m2]; exact hq1, ?_⟩
        rw [m4]
        show q ∉ insertSet b.component_outputs p
        rw [mem_insertSet]
        rintro (hx | rfl)
        · exact hq2 hx
        · exact hpnotin hq
      obtain ⟨⟨ihc, iho⟩, ihr⟩ := ih (mapEntry bmid p) hpre' (List.nodup_cons.mp hnd).2
      refine ⟨⟨?_, ?_⟩, ?_⟩
      · intro hc
        apply ihc
        rw [m2]
        exact hc
      · intro hnc hmem
        apply iho
        · rw [m2]
          exact hnc
        · rcases hmem with hmem | hmem
          · left
            rw [m4]
            exact mem_insertSet.mpr (Or.inl hmem)
          · rcases List.mem_cons.mp hmem with rfl | hmem
            · left
              rw [m4]
              exact mem_insertSet.mpr (Or.inr rfl)
            · exact Or.inr hmem
      · intro q hq
        rcases List.mem_cons.mp hq with rfl | hq
        · refine ⟨?_, ?_⟩
          · apply (procOutputs_mono _ _ _).1
            rw [m4]
            exact mem_insertSet.mpr (Or.inr rfl)
          · exact (procOutputs_mono _ _ _).2 (mapEntry_lookup_self bmid _)
        · exact ihr q hq

theorem addComponent_circuit_inputs (b : CircuitBuilder α) (c : Gate α) :
    (b.add_component c).1.circuit_inputs = b.circuit_inputs := by
  rw [CircuitBuilder.add_component]
  split
  · rfl
  · rcases hpi : procInputs b c.inputs with ⟨b1, e1⟩
    have hb1 : b1.circuit_inputs = b.circuit_inputs := by
      have h := (procInputs_fields c.inputs b).2.1
      rw [hpi] at h
      exact h
    cases e1 with
    | some e => simpa [hpi] using hb1
    | none =>
      rcases hpo : procOutputs b1 c.outputs with ⟨b2, e2⟩
      have hb2 : b2.circuit_inputs = b1.circuit_inputs := by
        have h := (procOutputs_fields c.outputs b1).2.1
        rw [hpo] at h
        exact h
      cases e2 with
      | some e => simp [hpi, hpo, hb2, hb1]
      | none => simp [hpi, hpo]; rw [hb2, hb1]

theorem addComponent_error_components (b : CircuitBuilder α) (c : Gate α)
    (e : CircuitBuilderError) (h : (b.add_component c).2 = some e) :
    (b.add_component c).1.components = b.components := by
  rw [CircuitBuilder.add_component] at h ⊢
  split at h
  · rw [if_pos (by assumption)]
  · rw [if_neg (by assumption)]
    rcases hpi : procInputs b c.inputs with ⟨b1, e1⟩
    have hb1 : b1.components = b.components := by
      have hf := (procInputs_fields c.inputs b).1
      rw [hpi] at hf
      exact hf
    rw [hpi] at h
    cases e1 with
    | some e1v => simpa [hpi] using hb1
    | none =>
      dsimp only at h
      rcases hpo : procOutputs b1 c.outputs with ⟨b2, e2⟩
      have hb2 : b2.components = b1.components := by
        have hf := (procOutputs_fields c.outputs b1).1
        rw [hpo] at hf
        exact hf
      rw [hpo] at h
      cases e2 with
      | some e2v => simp [hpi, hpo, hb2, hb1]
      | none => simp at h

theorem addComponent_none_iff (b : CircuitBuilder α) (c : Gate α) :
    (b.add_component c).2 = none ↔
      (¬c.inputs.isEmpty ∧ ¬c.outputs.isEmpty ∧
       (∀ i ∈ c.inputs, i ∈ b.component_outputs ∨ i ∈ b.circuit_inputs) ∧
       outputsFresh b.circuit_inputs b.component_outputs c.outputs = true) := by
  rw [CircuitBuilder.add_component]
  by_cases hde : c.inputs.isEmpty || c.outputs.isEmpty
  · rw [if_pos hde]
    rcases Bool.or_eq_true _ _ |>.mp hde with hd | hd <;> simp [hd]
  · rw [if_neg hde]
    rw [Bool.or_eq_true, not_or, Bool.not_eq_true, Bool.not_eq_true] at hde
    obtain ⟨hi, ho⟩ := hde
    rcases hpi : procInputs b c.inputs with ⟨b1, e1⟩
    have hpin := procInputs_none_iff c.inputs b
    rw [hpi] at hpin
    obtain ⟨hf1, hf2, hf3⟩ := procInputs_fields c.inputs b
    rw [hpi] at hf1 hf2 hf3
    cases e1 with
    | some e1v =>
      simp only [hpi]
      constructor
      · intro hcon
        simp at hcon
      · rintro ⟨-, -, hall, -⟩
        have : (some e1v : Option CircuitBuilderError) = none := hpin.mpr hall
        simp at this
    | none =>
      rcases hpo : procOutputs b1 c.outputs with ⟨b2, e2⟩
      have hpon := procOutputs_none_iff c.outputs b1 b1.component_outputs (fun _ => Iff.rfl)
      rw [hpo] at hpon
      have hall : ∀ i ∈ c.inputs, i ∈ b.component_outputs ∨ i ∈ b.circuit_inputs :=
        hpin.mp rfl
      cases e2 with
      | some e2v =>
        simp only [hpi, hpo]
        constructor
        · intro hcon
          simp at hcon
        · rintro ⟨-, -, -, hfresh⟩
          rw [← hf2, ← hf3] at hfresh
          have : (some e2v : Option CircuitBuilderError) = none := hpon.mpr hfresh
          simp at this
      | none =>
        simp only [hpi, hpo]
        refine ⟨fun _ => ⟨by simp [hi], by simp [ho], hall, ?_⟩, fun _ => trivial⟩
        have hfresh := hpon.mp rfl
        rw [hf2, hf3] at hfresh
        exact hfresh

theorem addComponent_ok_state (b : CircuitBuilder α) (c : Gate α)
    (h : (b.add_component c).2 = none) :
    (b.add_component c).1.components = b.components ++ [c] ∧
    (∀ x, x ∈ (b.add_component c).1.component_inputs ↔
      x ∈ b.component_inputs ∨ x ∈ c.inputs) ∧
    (∀ x, x ∈ (b.add_component c).1.component_outputs ↔
      x ∈ b.component_outputs ∨ x ∈ c.outputs) ∧
    (∀ x, (alookup (b.add_component c).1.index_map x).isSome ↔
      (alookup b.index_map x).isSome ∨ x ∈ c.inputs ∨ x ∈ c.outputs) := by
  obtain ⟨hi, ho, hall, hfresh⟩ := (addComponent_none_iff b c).mp h
  rw [CircuitBuilder.add_component]
  rw [if_neg (by simp [Bool.or_eq_true]; exact ⟨by simpa using hi, by simpa using ho⟩)]
  rcases hpi : procInputs b c.inputs with ⟨b1, e1⟩
  have hpin := (procInputs_none_iff c.inputs b).mpr hall
  rw [hpi] at hpin
  cases e1 with
  | some e1v => simp at hpin
  | none =>
    obtain ⟨hs1, hs2⟩ := procInputs_ok_state c.inputs b hall
    rw [hpi] at hs1 hs2
    obtain ⟨hf1, hf2, hf3⟩ := procInputs_fields c.inputs b
    rw [hpi] at hf1 hf2 hf3
    have hpon : (procOutputs b1 c.outputs).2 = none := by
      rw [procOutputs_none_iff c.outputs b1 b1.component_outputs (fun _ => Iff.rfl)]
      rw [hf2, hf3]
      exact hfresh
    rcases hpo : procOutputs b1 c.outputs with ⟨b2, e2⟩
    rw [hpo] at hpon
    cases e2 with
    | some e2v => simp at hpon
    | none =>
      obtain ⟨ho1, ho2⟩ := procOutputs_ok_state c.outputs b1 (by rw [hpo])
      rw [hpo] at ho1 ho2
      obtain ⟨hg1, hg2, hg3⟩ := procOutputs_fields c.outputs b1
      rw [hpo] at hg1 hg2 hg3
      simp only [hpi, hpo]
      refine ⟨by rw [hg1, hf1], ?_, ?_, ?_⟩
      · intro x
        show x ∈ b2.component_inputs ↔ _
        rw [hg3, hs1]
      · intro x
        show x ∈ b2.component_outputs ↔ _
        rw [ho1, hf3]
      · intro x
        show (alookup b2.index_map x).isSome ↔ _
        rw [ho2, hs2]
        tauto

theorem addComponent_indexInv (b : CircuitBuilder α) (c : Gate α)
    (h : IndexInv b) : IndexInv (b.add_component c).1 := by
  rw [CircuitBuilder.add_component]
  split
  · exact h
  · rcases hpi : procInputs b c.inputs with ⟨b1, e1⟩
    have h1 : IndexInv b1 := by
      have hinv := procInputs_indexInv c.inputs b h
      rw [hpi] at hinv
      exact hinv
    cases e1 with
    | some e1v => exact h1
    | none =>
      dsimp only
      rcases hpo : procOutputs b1 c.outputs with ⟨b2, e2⟩
      have h2 : IndexInv b2 := by
        have hinv := procOutputs_indexInv c.outputs b1 h1
        rw [hpo] at hinv
        exact hinv
      cases e2 with
      | some e2v => exact h2
      | none => exact h2

theorem addComponent_fail_input (b : CircuitBuilder α) (c : Gate α)
    (pre : List Nat) (i : Nat) (post : List Nat)
    (ho : ¬c.outputs.isEmpty = true)
    (hsplit : c.inputs = pre ++ i :: post)
    (hpre : ∀ j ∈ pre, j ∈ b.component_outputs ∨ j ∈ b.circuit_inputs)
    (hi1 : i ∉ b.component_outputs) (hi2 : i ∉ b.circuit_inputs) :
    (b.add_component c).2 = some (.TopologicalOrderError i) ∧
    ∀ j ∈ pre, j ∈ (b.add_component c).1.component_inputs ∧
      (alookup (b.add_component c).1.index_map j).isSome := by
  rw [CircuitBuilder.add_component]
  rw [if_neg (by simp [Bool.or_eq_true, hsplit]; simpa using ho)]
  obtain ⟨hfe, hfr⟩ := procInputs_fail pre i post b hpre hi1 hi2
  rw [hsplit]
  rcases hpi : procInputs b (pre ++ i :: post) with ⟨b1, e1⟩
  rw [hpi] at hfe hfr
  cases e1 with
  | some e1v =>
    simp only [Option.some_inj] at hfe
    subst hfe
    exact ⟨rfl, hfr⟩
  | none => simp at hfe

theorem addComponent_fail_output (b : CircuitBuilder α) (c : Gate α)
    (pre : List Nat) (o : Nat) (post : List Nat)
    (hi : ¬c.inputs.isEmpty = true)
    (hsplit : c.outputs = pre ++ o :: post)
    (hall : ∀ j ∈ c.inputs, j ∈ b.component_outputs ∨ j ∈ b.circuit_inputs)
    (hpre : ∀ p ∈ pre, p ∉ b.circuit_inputs ∧ p ∉ b.component_outputs)
    (hnd : pre.Nodup) :
    ((o ∈ b.circuit_inputs →
        (b.add_component c).2 = some (.OutputIsACircuitInput o)) ∧
     (o ∉ b.circuit_inputs → o ∈ b.component_outputs ∨ o ∈ pre →
        (b.add_component c).2 = some (.OutputsConnection o))) ∧
    ∀ j ∈ c.inputs, j ∈ (b.add_component c).1.component_inputs ∧
      (alookup (b.add_component c).1.index_map j).isSome := by
  rw [CircuitBuilder.add_component]
  rw [if_neg (by simp [Bool.or_eq_true, hsplit]; simpa using hi)]
  rcases hpi : procInputs b c.inputs with ⟨b1, e1⟩
  have hpin := (procInputs_none_iff c.inputs b).mpr hall
  rw [hpi] at hpin
  cases e1 with
  | some e1v => simp at hpin
  | none =>
    obtain ⟨hs1, hs2⟩ := procInputs_ok_state c.inputs b hall
    rw [hpi] at hs1 hs2
    obtain ⟨hf1, hf2, hf3⟩ := procInputs_fields c.inputs b
    rw [hpi] at hf1 hf2 hf3
    have hpre1 : ∀ p ∈ pre, p ∉ b1.circuit_inputs ∧ p ∉ b1.component_outputs := by
      intro p hp
      obtain ⟨hp1, hp2⟩ := hpre p hp
      exact ⟨by rw [hf2]; exact hp1, by rw [hf3]; exact hp2⟩
    obtain ⟨⟨hc1, hc2⟩, hcr⟩ := procOutputs_fail pre o post b1 hpre1 hnd
    rw [← hsplit] at hc1 hc2 hcr
    rcases hpo : procOutputs b1 c.outputs with ⟨b2, e2⟩
    rw [hpo] at hc1 hc2 hcr
    obtain ⟨hg1, hg2, hg3⟩ := procOutputs_fields c.outputs b1
    rw [hpo] at hg1 hg2 hg3
    have hrec : ∀ j ∈ c.inputs, j ∈ b2.component_inputs ∧
        (alookup b2.index_map j).isSome := by
      intro j hj
      refine ⟨?_, ?_⟩
      · rw [hg3]
        exact (hs1 j).mpr (Or.inr hj)
      · have hj1 : (alookup b1.index_map j).isSome := (hs2 j).mpr (Or.inr hj)
        have := (procOutputs_mono c.outputs b1 j).2 hj1
        rw [hpo] at this
        exact this
    simp only [hpi, hpo]
    cases e2 with
    | some e2v =>
      refine ⟨⟨?_, ?_⟩, ?_⟩
      · intro hoc
        exact hc1 (by rw [hf2]; exact hoc)
      · intro hnc hmem
        exact hc2 (by rw [hf2]; exact hnc)
          (by rcases hmem with hm | hm
              · exact Or.inl (by rw [hf3]; exact hm)
              · exact Or.inr hm)
      · intro j hj
        exact hrec j hj
    | none =>
      refine ⟨⟨?_, ?_⟩, ?_⟩
      · intro hoc
        have h5 := hc1 (by rw [hf2]; exact hoc)
        simp at h5
      · intro hnc hmem
        have h5 := hc2 (by rw [hf2]; exact hnc)
          (by rcases hmem with hm | hm
              · exact Or.inl (by rw [hf3]; exact hm)
              · exact Or.inr hm)
        simp at h5
      · intro j hj
        exact hrec j hj

theorem bool_eq_of_iff {a b : Bool} (h : a = true ↔ b = true) : a = b := by
  cases a <;> cases b <;> simp_all

theorem outputsFresh_congr (decl : List Nat) (l : List Nat) :
    ∀ outs1 outs2, (∀ x, x ∈ outs1 ↔ x ∈ outs2) →
    outputsFresh decl outs1 l = outputsFresh decl outs2 l := by
  induction l with
  | nil => intro outs1 outs2 _; rfl
  | cons o rest ih =>
    intro outs1 outs2 hset
    rw [outputsFresh, outputsFresh]
    have h1 : decide (o ∈ outs1) = decide (o ∈ outs2) := by
      apply bool_eq_of_iff
      simpa using hset o
    have h2 : outputsFresh decl (outs1 ++ [o]) rest = outputsFresh decl (outs2 ++ [o]) rest := by
      apply ih
      intro x
      simp only [List.mem_append, List.mem_singleton]
      rw [hset x]
    rw [h1, h2]

theorem addComponent_isNone_eq (b : CircuitBuilder α) (c : Gate α) (outs : List Nat)
    (hset : ∀ x, x ∈ b.component_outputs ↔ x ∈ outs) :
    (b.add_component c).2.isNone =
      (!c.inputs.isEmpty && !c.outputs.isEmpty &&
       c.inputs.all (fun i => decide (i ∈ outs) || decide (i ∈ b.circuit_inputs)) &&
       outputsFresh b.circuit_inputs outs c.outputs) := by
  apply bool_eq_of_iff
  rw [Option.isNone_iff_eq_none, addComponent_none_iff]
  have hfr : outputsFresh b.circuit_inputs b.component_outputs c.outputs =
      outputsFresh b.circuit_inputs outs c.outputs :=
    outputsFresh_congr b.circuit_inputs c.outputs _ _ hset
  simp only [Bool.and_eq_true, List.all_eq_true, Bool.or_eq_true, decide_eq_true_iff,
    Bool.not_eq_true', hfr]
  constructor
  · rintro ⟨h1, h2, h3, h4⟩
    refine ⟨⟨⟨by simpa using h1, by simpa using h2⟩, fun i hi => ?_⟩, h4⟩
    rcases h3 i hi with hm | hm
    · exact Or.inl ((hset i).mp hm)
    · exact Or.inr hm
  · rintro ⟨⟨⟨h1, h2⟩, h3⟩, h4⟩
    refine ⟨by simpa using h1, by simpa using h2, fun i hi => ?_, h4⟩
    rcases h3 i hi with hm | hm
    · exact Or.inl ((hset i).mpr hm)
    · exact Or.inr hm

theorem buildOk_iff (b : CircuitBuilder α) :
    buildOk b = true ↔
      (b.components.isEmpty = false ∧ ∀ i ∈ b.circuit_inputs, i ∈ b.component_inputs) := by
  unfold buildOk CircuitBuilder.build
  by_cases hc : b.components.isEmpty
  · simp [hc]
  · rw [if_neg hc]
    rw [Bool.not_eq_true] at hc
    by_cases hu : (b.circuit_inputs.filter fun i => !decide (i ∈ b.component_inputs)).isEmpty
    · rw [if_neg (by simp [hu])]
      simp only [hc, true_and]
      rw [List.isEmpty_iff, List.filter_eq_nil_iff] at hu
      constructor
      · intro _ i hi
        have h2 := hu i hi
        simpa using h2
      · intro _
        trivial
    · rw [if_pos (by simpa using hu)]
      rw [List.isEmpty_iff, List.filter_eq_nil_iff] at hu
      push_neg at hu
      obtain ⟨i, hi, hmem⟩ := hu
      have hni : i ∉ b.component_inputs := by simpa using hmem
      constructor
      · intro hcon
        simp at hcon
      · rintro ⟨-, hall⟩
        exact absurd (hall i hi) hni

theorem build_ok_fields (b : CircuitBuilder α) (c : GenericCircuit α)
    (h : b.build = .ok c) :
    c.components = b.components ∧ c.inputs = b.circuit_inputs ∧
    c.memory_map = b.index_map ∧
    c.outputs = b.component_outputs.filter (fun o => !decide (o ∈ b.component_inputs)) := by
  unfold CircuitBuilder.build at h
  split at h
  · simp at h
  split at h
  · simp at h
  · simp only [Except.ok.injEq] at h
    subst h
    exact ⟨rfl, rfl, rfl, rfl⟩

theorem runOps_circuit_inputs (ops : List (Op α)) :
    ∀ b : CircuitBuilder α,
    (runOps b ops).1.circuit_inputs = b.circuit_inputs ++ declaredOf ops := by
  induction ops with
  | nil => intro b; simp [runOps, declaredOf]
  | cons op ops ih =>
    intro b
    cases op with
    | addInputs l =>
      rw [runOps, declaredOf, ih]
      show (b.add_inputs l).circuit_inputs ++ declaredOf ops = _
      rw [CircuitBuilder.add_inputs]
      simp [List.append_assoc]
    | addComponent c =>
      rw [runOps, declaredOf]
      show (runOps (b.add_component c).1 ops).1.circuit_inputs = _
      rw [ih (b.add_component c).1, addComponent_circuit_inputs]

theorem runOps_indexInv (ops : List (Op α)) :
    ∀ b : CircuitBuilder α, IndexInv b → IndexInv (runOps b ops).1 := by
  induction ops with
  | nil => intro b h; exact h
  | cons op ops ih =>
    intro b h
    cases op with
    | addInputs l =>
      rw [runOps]
      exact ih (b.add_inputs l) h
    | addComponent c =>
      rw [runOps]
      exact ih (b.add_component c).1 (addComponent_indexInv b c h)

theorem runOps_spec (ops : List (Op α)) :
    ∀ (b : CircuitBuilder α) (outs : List Nat),
    (∀ x, x ∈ b.component_outputs ↔ x ∈ outs) →
    ((runOps b ops).2 = specOkFrom b.circuit_inputs outs ops) ∧
    (specOkFrom b.circuit_inputs outs ops = true →
      ((runOps b ops).1.components = b.components ++ gatesOf ops) ∧
      (∀ x, x ∈ (runOps b ops).1.component_inputs ↔
        x ∈ b.component_inputs ∨ x ∈ compInputsOf ops)) := by
  induction ops with
  | nil =>
    intro b outs hset
    refine ⟨rfl, fun _ => ⟨by simp [runOps, gatesOf], fun x => ?_⟩⟩
    simp [runOps, compInputsOf, gatesOf]
  | cons op ops ih =>
    intro b outs hset
    cases op with
    | addInputs l =>
      obtain ⟨ihf, ihs⟩ := ih (b.add_inputs l) outs hset
      rw [runOps, specOkFrom]
      refine ⟨ihf, fun hs => ?_⟩
      obtain ⟨hc, hm⟩ := ihs hs
      exact ⟨hc, fun x => hm x⟩
    | addComponent c =>
      rw [runOps, specOkFrom]
      have hbr := addComponent_isNone_eq b c outs hset
      by_cases hcond : (b.add_component c).2.isNone = true
      · have hnone : (b.add_component c).2 = none := Option.isNone_iff_eq_none.mp hcond
        obtain ⟨hcomps, hmi, hmo, hml⟩ := addComponent_ok_state b c hnone
        have hset' : ∀ x, x ∈ (b.add_component c).1.component_outputs ↔
            x ∈ outs ++ c.outputs := by
          intro x
          rw [hmo x, List.mem_append, hset x]
        obtain ⟨ihf, ihs⟩ := ih (b.add_component c).1 (outs ++ c.outputs) hset'
        have hcirc : (b.add_component c).1.circuit_inputs = b.circuit_inputs :=
          addComponent_circuit_inputs b c
        constructor
        · rw [← hbr, ihf, hcirc]
        · intro hs
          rw [Bool.and_eq_true] at hs
          have hs2 : specOkFrom (b.add_component c).1.circuit_inputs
              (outs ++ c.outputs) ops = true := by
            rw [hcirc]
            exact hs.2
          obtain ⟨hc2, hm2⟩ := ihs hs2
          constructor
          · rw [hc2, hcomps]
            simp [gatesOf, List.append_assoc]
          · intro x
            rw [hm2 x, hmi x]
            simp only [compInputsOf, gatesOf, List.foldr_cons, List.mem_append]
            show (x ∈ b.component_inputs ∨ x ∈ c.inputs) ∨
              x ∈ (gatesOf ops).foldr (fun g acc => g.inputs ++ acc) [] ↔ _
            tauto
      · have hfalse : (b.add_component c).2.isNone = false :=
          Bool.not_eq_true _ |>.mp hcond
        constructor
        · rw [hfalse, Bool.false_and, ← hbr, hfalse, Bool.false_and]
        · intro hs
          rw [Bool.and_eq_true] at hs
          have hcon : (b.add_component c).2.isNone = true := by
            rw [hbr]
            exact hs.1
          rw [hfalse] at hcon
          simp at hcon

theorem pipelineOk_eq_specBuildOk (ops : List (Op α)) :
    pipelineOk ops = specBuildOk ops := by
  unfold pipelineOk specBuildOk
  have hnew : ∀ x, x ∈ (CircuitBuilder.new α).component_outputs ↔ x ∈ ([] : List Nat) :=
    fun x => Iff.rfl
  obtain ⟨hf, hs⟩ := runOps_spec ops (CircuitBuilder.new α) [] hnew
  have hci : (CircuitBuilder.new α).circuit_inputs = ([] : List Nat) := rfl
  rw [hci] at hf hs
  rw [hf]
  by_cases hok : specOkFrom ([] : List Nat) ([] : List Nat) ops = true
  · rw [hok, Bool.true_and, Bool.true_and]
    obtain ⟨hc, hm⟩ := hs hok
    apply bool_eq_of_iff
    rw [buildOk_iff, Bool.and_eq_true, List.all_eq_true]
    have hcomp : (runOps (CircuitBuilder.new α) ops).1.components = gatesOf ops := by
      rw [hc]
      simp [CircuitBuilder.new]
    have hcini : (runOps (CircuitBuilder.new α) ops).1.circuit_inputs = declaredOf ops := by
      rw [runOps_circuit_inputs]
      simp [CircuitBuilder.new]
    rw [hcomp, hcini]
    constructor
    · rintro ⟨h1, h2⟩
      refine ⟨by simpa using h1, fun d hd => ?_⟩
      have h3 := h2 d hd
      rw [hm d] at h3
      rcases h3 with h3 | h3
      · simp [CircuitBuilder.new] at h3
      · simpa using h3
    · rintro ⟨h1, h2⟩
      refine ⟨by simpa using h1, fun d hd => ?_⟩
      rw [hm d]
      right
      have h3 := h2 d hd
      simpa using h3
  · have hff : specOkFrom ([] : List Nat) ([] : List Nat) ops = false :=
      Bool.not_eq_true _ |>.mp hok
    rw [hff, Bool.false_and, Bool.false_and, Bool.false_and]

theorem write_eq_occupied (m : CircuitMemory α) (i : Nat) (w v : α)
    (h : m.wires[i]? = some (some w)) :
    m.write i v = (m, some (.RewriteAttempt i)) := by
  unfold CircuitMemory.write
  rw [h]
  rfl

theorem write_eq_empty (m : CircuitMemory α) (i : Nat) (v : α)
    (h : m.wires[i]? = some none) :
    m.write i v = (⟨m.wires.set i (some v)⟩, none) := by
  unfold CircuitMemory.write
  rw [h]
  rfl

theorem write_eq_oob (m : CircuitMemory α) (i : Nat) (v : α)
    (h : m.wires[i]? = none) :
    m.write i v = (m, some (.WriteError i)) := by
  unfold CircuitMemory.write
  rw [h]

theorem write_error_id (m : CircuitMemory α) (i : Nat) (v : α) (e : CircuitMemoryError)
    (h : (m.write i v).2 = some e) : (m.write i v).1 = m := by
  rcases hsl : m.wires[i]? with _ | (_ | w0)
  · rw [write_eq_oob m i v hsl]
  · rw [write_eq_empty m i v hsl] at h
    simp at h
  · rw [write_eq_occupied m i w0 v hsl]

theorem write_ok_state (m : CircuitMemory α) (i : Nat) (v : α)
    (h : (m.write i v).2 = none) :
    (∀ (j : Nat) (w : α), m.wires[j]? = some (some w) →
      ((m.write i v).1).wires[j]? = some (some w)) ∧
    ((m.write i v).1).wires[i]? = some (some v) := by
  rcases hsl : m.wires[i]? with _ | (_ | w0)
  · rw [write_eq_oob m i v hsl] at h
    simp at h
  · rw [write_eq_empty m i v hsl]
    constructor
    · intro j w hj
      have hgoal : (m.wires.set i (some v))[j]? = some (some w) := by
        by_cases hij : i = j
        · subst hij
          rw [hsl] at hj
          simp at hj
        · rw [List.getElem?_set_ne hij]
          exact hj
      exact hgoal
    · have hlt : i < m.wires.length := by
        by_contra hge
        push_neg at hge
        rw [List.getElem?_eq_none hge] at hsl
        simp at hsl
      have hgoal : (m.wires.set i (some v))[i]? = some (some v) :=
        List.getElem?_set_self hlt
      exact hgoal
  · rw [write_eq_occupied m i w0 v hsl] at h
    simp at h

theorem writeInputs_cons_noBinding (c : GenericCircuit α) (binding : List (Nat × α))
    (mem : CircuitMemory α) (i : Nat) (rest : List Nat)
    (hb : alookup binding i = none) :
    writeInputs c binding mem (i :: rest) = (mem, some (.InputNotFoundError i)) := by
  rw [writeInputs, hb]

theorem writeInputs_cons_noMap (c : GenericCircuit α) (binding : List (Nat × α))
    (mem : CircuitMemory α) (i : Nat) (rest : List Nat) (v : α)
    (hb : alookup binding i = some v) (hm : alookup c.memory_map i = none) :
    writeInputs c binding mem (i :: rest) = (mem, some (.MemoryMappingError i)) := by
  rw [writeInputs, hb]
  dsimp only
  rw [hm]

theorem writeInputs_cons_writeErr (c : GenericCircuit α) (binding : List (Nat × α))
    (mem mem1 : CircuitMemory α) (i : Nat) (rest : List Nat) (v : α) (idx : Nat)
    (e : CircuitMemoryError)
    (hb : alookup binding i = some v) (hm : alookup c.memory_map i = some idx)
    (hw : mem.write idx v = (mem1, some e)) :
    writeInputs c binding mem (i :: rest) = (mem1, some (.MemoryError e)) := by
  rw [writeInputs, hb]
  dsimp only
  rw [hm]
  dsimp only
  rw [hw]

theorem writeInputs_cons_ok (c : GenericCircuit α) (binding : List (Nat × α))
    (mem mem1 : CircuitMemory α) (i : Nat) (rest : List Nat) (v : α) (idx : Nat)
    (hb : alookup binding i = some v) (hm : alookup c.memory_map i = some idx)
    (hw : mem.write idx v = (mem1, none)) :
    writeInputs c binding mem (i :: rest) = writeInputs c binding mem1 rest := by
  rw [writeInputs, hb]
  dsimp only
  rw [hm]
  dsimp only
  rw [hw]

theorem writeInputs_preserves (c : GenericCircuit α) (binding : List (Nat × α))
    (ids : List Nat) :
    ∀ (mem : CircuitMemory α) (j : Nat) (w : α), mem.wires[j]? = some (some w) →
    ((writeInputs c binding mem ids).1).wires[j]? = some (some w) := by
  induction ids with
  | nil => intro mem j w hj; exact hj
  | cons i rest ih =>
    intro mem j w hj
    cases hb : alookup binding i with
    | none =>
      rw [writeInputs_cons_noBinding c binding mem i rest hb]
      exact hj
    | some v =>
      cases hm : alookup c.memory_map i with
      | none =>
        rw [writeInputs_cons_noMap c binding mem i rest v hb hm]
        exact hj
      | some idx =>
        rcases hw : mem.write idx v with ⟨mem1, ew⟩
        cases ew with
        | some e =>
          rw [writeInputs_cons_writeErr c binding mem mem1 i rest v idx e hb hm hw]
          have hid : mem1 = mem := by
            have h2 := write_error_id mem idx v e (by rw [hw])
            rw [hw] at h2
            exact h2
          show mem1.wires[j]? = some (some w)
          rw [hid]
          exact hj
        | none =>
          rw [writeInputs_cons_ok c binding mem mem1 i rest v idx hb hm hw]
          have hpres : mem1.wires[j]? = some (some w) := by
            have h2 := (write_ok_state mem idx v (by rw [hw])).1 j w hj
            rw [hw] at h2
            exact h2
          exact ih mem1 j w hpres

theorem writeInputs_ok_cons (c : GenericCircuit α) (binding : List (Nat × α))
    (mem : CircuitMemory α) (i : Nat) (rest : List Nat)
    (h : (writeInputs c binding mem (i :: rest)).2 = none) :
    ∃ v idx mem1, alookup binding i = some v ∧ alookup c.memory_map i = some idx ∧
      mem.write idx v = (mem1, none) ∧
      writeInputs c binding mem (i :: rest) = writeInputs c binding mem1 rest := by
  cases hb : alookup binding i with
  | none =>
    rw [writeInputs_cons_noBinding c binding mem i rest hb] at h
    simp at h
  | some v =>
    cases hm : alookup c.memory_map i with
    | none =>
      rw [writeInputs_cons_noMap c binding mem i rest v hb hm] at h
      simp at h
    | some idx =>
      rcases hw : mem.write idx v with ⟨mem1, ew⟩
      cases ew with
      | some e =>
        rw [writeInputs_cons_writeErr c binding mem mem1 i rest v idx e hb hm hw] at h
        simp at h
      | none =>
        exact ⟨v, idx, mem1, rfl, rfl, hw,
          writeInputs_cons_ok c binding mem mem1 i rest v idx hb hm hw⟩

theorem execComponents_preserves (gs : List (Gate α)) :
    ∀ (mem : CircuitMemory α), (∀ g ∈ gs, GateMonotone g) →
    ∀ (j : Nat) (w : α), mem.wires[j]? = some (some w) →
    ((execComponents gs mem).1).wires[j]? = some (some w) := by
  induction gs with
  | nil => intro mem _ j w hj; exact hj
  | cons g rest ih =>
    intro mem hmono j w hj
    rw [execComponents]
    have hg := hmono g (List.mem_cons_self g rest) mem j w hj
    rcases hx : g.exec mem with ⟨mem1, flag⟩
    rw [hx] at hg
    cases flag with
    | true => exact ih mem1 (fun g' hg' => hmono g' (List.mem_cons.mpr (Or.inr hg'))) j w hg
    | false => exact hg

theorem run_len_mismatch (ex : GenericCircuitExecutor α) (binding : List (Nat × α))
    (h : binding.length ≠ ex.circuit.inputs.length) :
    ex.run binding = (.error .InputLengthMismatch, ex) := by
  unfold GenericCircuitExecutor.run
  rw [if_pos h]

theorem run_eq_write_error (ex : GenericCircuitExecutor α) (binding : List (Nat × α))
    (mem1 : CircuitMemory α) (e : CircuitExecutionError)
    (hlen : binding.length = ex.circuit.inputs.length)
    (hw : writeInputs ex.circuit binding ex.memory ex.circuit.inputs = (mem1, some e)) :
    ex.run binding = (.error e, { ex with memory := mem1 }) := by
  unfold GenericCircuitExecutor.run
  rw [if_neg (fun hcon => hcon hlen), hw]

theorem run_eq_of_parts (ex : GenericCircuitExecutor α) (binding : List (Nat × α))
    (mem1 mem2 : CircuitMemory α)
    (hlen : binding.length = ex.circuit.inputs.length)
    (hw : writeInputs ex.circuit binding ex.memory ex.circuit.inputs = (mem1, none))
    (hx : execComponents ex.circuit.components mem1 = (mem2, none)) :
    ex.run binding =
      (match readOutputs ex.circuit mem2 ex.circuit.outputs with
       | .ok out => (.ok out, { ex with memory := mem2 })
       | .error e => (.error e, { ex with memory := mem2 })) := by
  unfold GenericCircuitExecutor.run
  rw [if_neg (fun hcon => hcon hlen), hw]
  dsimp only
  rw [hx]

theorem run_eq_exec_error (ex : GenericCircuitExecutor α) (binding : List (Nat × α))
    (mem1 mem2 : CircuitMemory α) (e : CircuitExecutionError)
    (hlen : binding.length = ex.circuit.inputs.length)
    (hw : writeInputs ex.circuit binding ex.memory ex.circuit.inputs = (mem1, none))
    (hx : execComponents ex.circuit.components mem1 = (mem2, some e)) :
    ex.run binding = (.error e, { ex with memory := mem2 }) := by
  unfold GenericCircuitExecutor.run
  rw [if_neg (fun hcon => hcon hlen), hw]
  dsimp only
  rw [hx]

theorem run_ok_parts (ex : GenericCircuitExecutor α) (binding : List (Nat × α))
    (out : List (Nat × α)) (h : (ex.run binding).1 = .ok out) :
    binding.length = ex.circuit.inputs.length ∧
    ∃ mem1 mem2,
      writeInputs ex.circuit binding ex.memory ex.circuit.inputs = (mem1, none) ∧
      execComponents ex.circuit.components mem1 = (mem2, none) ∧
      readOutputs ex.circuit mem2 ex.circuit.outputs = .ok out ∧
      (ex.run binding).2 = { ex with memory := mem2 } := by
  by_cases hlen : binding.length = ex.circuit.inputs.length
  · refine ⟨hlen, ?_⟩
    rcases hw : writeInputs ex.circuit binding ex.memory ex.circuit.inputs with ⟨mem1, e1⟩
    cases e1 with
    | some e =>
      rw [run_eq_write_error ex binding mem1 e hlen hw] at h
      simp at h
    | none =>
      rcases hx : execComponents ex.circuit.components mem1 with ⟨mem2, e2⟩
      cases e2 with
      | some e =>
        rw [run_eq_exec_error ex binding mem1 mem2 e hlen hw hx] at h
        simp at h
      | none =>
        rw [run_eq_of_parts ex binding mem1 mem2 hlen hw hx] at h
        cases hro : readOutputs ex.circuit mem2 ex.circuit.outputs with
        | ok o =>
          rw [hro] at h
          simp only at h
          have hoe : o = out := by simpa using h
          subst hoe
          refine ⟨mem1, mem2, rfl, hx, hro, ?_⟩
          rw [run_eq_of_parts ex binding mem1 mem2 hlen hw hx, hro]
        | error e =>
          rw [hro] at h
          simp at h
  · rw [run_len_mismatch ex binding hlen] at h
    simp at h

theorem readOutputs_append_of_error (c : GenericCircuit α) (mem : CircuitMemory α)
    (pre : List Nat) :
    ∀ (l : List Nat) (e : CircuitExecutionError),
    (∀ j ∈ pre, ∃ idx v, alookup c.memory_map j = some idx ∧ mem.read idx = .ok v) →
    readOutputs c mem l = .error e →
    readOutputs c mem (pre ++ l) = .error e := by
  induction pre with
  | nil => intro l e _ h; exact h
  | cons j pre ih =>
    intro l e hpre h
    obtain ⟨idx, v, h1, h2⟩ := hpre j (List.mem_cons_self j pre)
    rw [List.cons_append, readOutputs, h1]
    dsimp only
    rw [h2]
    dsimp only
    rw [ih l e (fun j' hj' => hpre j' (List.mem_cons.mpr (Or.inr hj'))) h]

theorem listMax_append_singleton (l : List Nat) (a : Nat) :
    listMax (l ++ [a]) =
      some (match listMax l with | none => a | some m => max m a) := by
  induction l with
  | nil => rfl
  | cons x l ih =>
    rw [List.cons_append, listMax, ih, listMax]
    cases hl : listMax l with
    | none => rfl
    | some m =>
      simp only [Option.some_inj]
      exact (Nat.max_assoc x m a).symm

theorem listMax_range (n : Nat) : listMax (List.range (n + 1)) = some n := by
  induction n with
  | zero => rfl
  | succ n ih =>
    rw [List.range_succ, listMax_append_singleton, ih]
    simp only [Option.some_inj]
    exact Nat.max_eq_right (Nat.le_succ n)

theorem memory_size_eq_length (c : GenericCircuit α)
    (hinv : c.memory_map.map Prod.snd = List.range c.memory_map.length) :
    c.memory_size = c.memory_map.length := by
  unfold GenericCircuit.memory_size
  rw [hinv]
  cases hn : c.memory_map.length with
  | zero => rfl
  | succ n => rw [listMax_range]

theorem nodup_cover_length_lt (keys l : List Nat)
    (hk : keys.Nodup) (hmem : ∀ x, x ∈ keys ↔ x ∈ l) (hnd : ¬ l.Nodup) :
    keys.length < l.length := by
  have hperm : List.Perm keys l.dedup := by
    rw [List.perm_ext_iff_of_nodup hk (List.nodup_dedup l)]
    intro a
    rw [hmem a, List.mem_dedup]
  have hlen : keys.length = l.dedup.length := hperm.length_eq
  have hle : l.dedup.length ≤ l.length := (List.dedup_sublist l).length_le
  rcases Nat.lt_or_ge l.dedup.length l.length with hlt | hge
  · omega
  · exfalso
    have heq : l.dedup = l := (List.dedup_sublist l).eq_of_length (by omega)
    rw [← heq] at hnd
    exact hnd (List.nodup_dedup l)

theorem passExec_gate_monotone (ins outs : List Nat) :
    GateMonotone (⟨ins, outs, passExec⟩ : Gate Bool) :=
  fun _ _ _ h => h

theorem gate01_monotone : GateMonotone gate01 := by
  intro mem i w h
  show ((writeOneExec mem).1).wires[i]? = some (some w)
  unfold writeOneExec
  rcases hw : mem.write 1 true with ⟨m1, ew⟩
  cases ew with
  | none =>
    have h2 := (write_ok_state mem 1 true (by rw [hw])).1 i w h
    rw [hw] at h2
    exact h2
  | some e =>
    have h2 := write_error_id mem 1 true e (by rw [hw])
    rw [hw] at h2
    show m1.wires[i]? = some (some w)
    have h3 : m1 = mem := h2
    rw [h3]
    exact h

end Lemmas

section Claims

/-- C4: run() is deterministic: two executors freshly constructed over the
same circuit, given the same input binding, return identical results —
equal output bindings on success, the same error otherwise. -/
theorem run_deterministic {α : Type} (c : GenericCircuit α)
    (binding : List (Nat × α)) (e1 e2 : GenericCircuitExecutor α)
    (h1 : e1 = GenericCircuitExecutor.new c) (h2 : e2 = GenericCircuitExecutor.new c) :
    e1.run binding = e2.run binding := by
  subst h1
  subst h2
  rfl

/-- Witness for C4 at the concrete circuit circ01 and binding [(0, true)]. -/
theorem run_deterministic_witness :
    (GenericCircuitExecutor.new circ01).run [(0, true)] =
      (GenericCircuitExecutor.new circ01).run [(0, true)] :=
  run_deterministic circ01 [(0, true)] _ _ rfl rfl

/-- C6: memory is write-once: writing to an occupied in-bounds slot fails
with RewriteAttempt and leaves the memory unchanged, even for an equal
value; and a successful write never erases or changes an already written
slot, so a slot goes Empty to Holds at most once and never reverts. -/
theorem memory_write_once {α : Type} :
    (∀ (m : CircuitMemory α) (i : Nat) (w v : α), m.wires[i]? = some (some w) →
      m.write i v = (m, some (CircuitMemoryError.RewriteAttempt i))) ∧
    (∀ (m : CircuitMemory α) (i : Nat) (v : α), (m.write i v).2 = none →
      ∀ (j : Nat) (x : α), m.wires[j]? = some (some x) →
        ((m.write i v).1).wires[j]? = some (some x)) :=
  ⟨fun m i w v h => write_eq_occupied m i w v h,
   fun m i v h j x hj => (write_ok_state m i v h).1 j x hj⟩

/-- Witness for C6: rewriting slot 0 of a memory holding true with the equal
value true fails and leaves it unchanged, and a successful write to slot 0
preserves the value already held in slot 1. -/
theorem memory_write_once_witness :
    (⟨[some true]⟩ : CircuitMemory Bool).write 0 true =
      (⟨[some true]⟩, some (CircuitMemoryError.RewriteAttempt 0)) ∧
    (((⟨[none, some false]⟩ : CircuitMemory Bool).write 0 true).1).wires[1]? =
      some (some false) :=
  ⟨(memory_write_once (α := Bool)).1 ⟨[some true]⟩ 0 true true rfl,
   (memory_write_once (α := Bool)).2 ⟨[none, some false]⟩ 0 true rfl 1 false rfl⟩

/-- C9: add_component is not atomic on failure: on any error the component
is never appended, while wire ids processed before the failing check stay
recorded in the seen-input set and the index map: inputs before a failing
input when an input check fails, and all inputs when an output check
fails. -/
theorem addComponent_non_atomic {α : Type} (b : CircuitBuilder α) (c : Gate α) :
    (∀ e, (b.add_component c).2 = some e →
      (b.add_component c).1.components = b.components) ∧
    (∀ pre i post, c.outputs.isEmpty = false → c.inputs = pre ++ i :: post →
      (∀ j ∈ pre, j ∈ b.component_outputs ∨ j ∈ b.circuit_inputs) →
      i ∉ b.component_outputs → i ∉ b.circuit_inputs →
      (b.add_component c).2 = some (CircuitBuilderError.TopologicalOrderError i) ∧
      ∀ j ∈ pre, j ∈ (b.add_component c).1.component_inputs ∧
        (alookup (b.add_component c).1.index_map j).isSome) ∧
    (∀ pre o post, c.inputs.isEmpty = false → c.outputs = pre ++ o :: post →
      (∀ j ∈ c.inputs, j ∈ b.component_outputs ∨ j ∈ b.circuit_inputs) →
      (∀ p ∈ pre, p ∉ b.circuit_inputs ∧ p ∉ b.component_outputs) → pre.Nodup →
      (o ∈ b.circuit_inputs ∨ o ∈ b.component_outputs ∨ o ∈ pre) →
      (b.add_component c).2 ≠ none ∧
      ∀ j ∈ c.inputs, j ∈ (b.add_component c).1.component_inputs ∧
        (alookup (b.add_component c).1.index_map j).isSome) := by
  refine ⟨addComponent_error_components b c, ?_, ?_⟩
  · intro pre i post ho hsplit hpre hi1 hi2
    exact addComponent_fail_input b c pre i post (by rw [ho]; simp) hsplit hpre hi1 hi2
  · intro pre o post hi hsplit hall hpre hnd hbad
    obtain ⟨⟨hc1, hc2⟩, hrec⟩ :=
      addComponent_fail_output b c pre o post (by rw [hi]; simp) hsplit hall hpre hnd
    refine ⟨?_, hrec⟩
    by_cases hoc : o ∈ b.circuit_inputs
    · rw [hc1 hoc]
      simp
    · rcases hbad with hm | hm | hm
      · exact absurd hm hoc
      · rw [hc2 hoc (Or.inl hm)]
        simp
      · rw [hc2 hoc (Or.inr hm)]
        simp

/-- Witness for C9: adding gateBadIn to builder0 fails on input 9, appends
nothing, and still records input 0 in the seen-input set and index map. -/
theorem addComponent_non_atomic_witness :
    (builder0.add_component gateBadIn).2 =
      some (CircuitBuilderError.TopologicalOrderError 9) ∧
    (builder0.add_component gateBadIn).1.components = [] ∧
    0 ∈ (builder0.add_component gateBadIn).1.component_inputs ∧
    (alookup (builder0.add_component gateBadIn).1.index_map 0).isSome = true := by
  obtain ⟨h1, h2, h3⟩ := addComponent_non_atomic builder0 gateBadIn
  obtain ⟨he, hr⟩ := h2 [0] 9 [] rfl rfl (by decide) (by decide) (by decide)
  obtain ⟨hr1, hr2⟩ := hr 0 (by decide)
  exact ⟨he, h1 _ he, hr1, hr2⟩

/-- C1 counterexample: for the op sequence cexOps every component input is a
declared circuit input and no output collides, every add_component call
succeeds, and yet build() fails with UnusedInputs [6] because the declared
input 6 is never consumed — refuting the claimed iff as stated. -/
theorem buildSuccess_claim_cex :
    specOkFrom [] [] cexOps = true ∧
    (runOps (CircuitBuilder.new Bool) cexOps).2 = true ∧
    (runOps (CircuitBuilder.new Bool) cexOps).1.build =
      Except.error (CircuitBuilderError.UnusedInputs [6]) :=
  ⟨rfl, rfl, rfl⟩

/-- C1 (amended): for every sequence of add_inputs/add_component calls, the
whole session (all add_component calls and the final build()) succeeds iff
every component has nonempty inputs and outputs, each component input is a
previously declared circuit input or an output of a strictly earlier
component, no output id collides with a previously declared input or any
earlier output (including earlier outputs of the same component), at least
one component was added, and every declared input is consumed by some
component. -/
theorem buildSuccess_iff_amended {α : Type} (ops : List (Op α)) :
    pipelineOk ops = specBuildOk ops :=
  pipelineOk_eq_specBuildOk ops

/-- C7: for every successfully built circuit, the wire-id-to-internal-index
map is a bijection onto the dense range 0..n-1: its values are exactly
0,1,...,n-1 in first-encounter order and its keys are distinct. -/
theorem index_map_bijection {α : Type} (ops : List (Op α)) (c : GenericCircuit α)
    (h : ((runOps (CircuitBuilder.new α) ops).1).build = .ok c) :
    c.memory_map.map Prod.snd = List.range c.memory_map.length ∧
    (c.memory_map.map Prod.fst).Nodup := by
  have hinv : IndexInv (runOps (CircuitBuilder.new α) ops).1 :=
    runOps_indexInv ops (CircuitBuilder.new α) ⟨rfl, List.nodup_nil, rfl⟩
  obtain ⟨hc1, hc2, hc3, hc4⟩ := build_ok_fields _ c h
  rw [hc3]
  exact ⟨hinv.1, hinv.2.1⟩

/-- Witness for C7 at the concrete session okOps building okCircuit. -/
theorem index_map_bijection_witness :
    okCircuit.memory_map.map Prod.snd = List.range okCircuit.memory_map.length ∧
    (okCircuit.memory_map.map Prod.fst).Nodup :=
  index_map_bijection okOps okCircuit rfl

/-- C8: for every successfully built circuit, memory_size() equals the
number of distinct wire ids (one plus the maximum assigned internal index),
and is exactly the memory size the executor allocates. -/
theorem memory_size_correct {α : Type} (ops : List (Op α)) (c : GenericCircuit α)
    (h : ((runOps (CircuitBuilder.new α) ops).1).build = .ok c) :
    c.memory_size = c.memory_map.length ∧
    (GenericCircuitExecutor.new c).memory.wires.length = c.memory_size := by
  have hinv : IndexInv (runOps (CircuitBuilder.new α) ops).1 :=
    runOps_indexInv ops (CircuitBuilder.new α) ⟨rfl, List.nodup_nil, rfl⟩
  obtain ⟨hc1, hc2, hc3, hc4⟩ := build_ok_fields _ c h
  refine ⟨memory_size_eq_length c (by rw [hc3]; exact hinv.1), ?_⟩
  show (List.replicate c.memory_size (none : Option α)).length = c.memory_size
  simp

/-- Witness for C8 at the concrete session okOps building okCircuit. -/
theorem memory_size_correct_witness :
    okCircuit.memory_size = okCircuit.memory_map.length ∧
    (GenericCircuitExecutor.new okCircuit).memory.wires.length =
      okCircuit.memory_size :=
  memory_size_correct okOps okCircuit rfl

/-- C10: add_inputs appends without deduplication, the built circuit keeps
one entry per registration, and run() compares the binding size against that
count — so when an input id was declared twice, any binding keyed by the
distinct declared ids fails with InputLengthMismatch. -/
theorem duplicate_inputs_unrunnable {α : Type} (ops : List (Op α))
    (c : GenericCircuit α) (binding : List (Nat × α))
    (hdup : ¬ (declaredOf ops).Nodup)
    (hbuild : ((runOps (CircuitBuilder.new α) ops).1).build = .ok c)
    (hkeys : (binding.map Prod.fst).Nodup)
    (hcover : ∀ x, x ∈ binding.map Prod.fst ↔ x ∈ c.inputs) :
    ((GenericCircuitExecutor.new c).run binding).1 =
      .error CircuitExecutionError.InputLengthMismatch := by
  obtain ⟨hc1, hc2, hc3, hc4⟩ := build_ok_fields _ c hbuild
  have hinputs : c.inputs = declaredOf ops := by
    rw [hc2, runOps_circuit_inputs]
    rfl
  have hnd : ¬ c.inputs.Nodup := by
    rw [hinputs]
    exact hdup
  have hlt : binding.length < c.inputs.length := by
    have hb : binding.length = (binding.map Prod.fst).length := by simp
    rw [hb]
    exact nodup_cover_length_lt (binding.map Prod.fst) c.inputs hkeys hcover hnd
  have hne : binding.length ≠ (GenericCircuitExecutor.new c).circuit.inputs.length := by
    show binding.length ≠ c.inputs.length
    omega
  rw [run_len_mismatch _ binding hne]

/-- Witness for C10: dupOps declares input 0 twice, builds dupCircuit, and
the binding [(0, true)] keyed by the single distinct declared id is
rejected with InputLengthMismatch. -/
theorem duplicate_inputs_unrunnable_witness :
    ¬ (declaredOf dupOps).Nodup ∧
    ((GenericCircuitExecutor.new dupCircuit).run [(0, true)]).1 =
      .error CircuitExecutionError.InputLengthMismatch :=
  ⟨by decide,
   duplicate_inputs_unrunnable dupOps dupCircuit [(0, true)] (by decide) rfl
     (by decide) (by intro x; simp [dupCircuit])⟩

/-- C2 counterexample: in circUnwritten the declared output 5 is mapped to
slot 0, which is never written during the run; run() fails with
MemoryError (UninitializedSlot 0), not with UndefinedOutput 5 as claimed. -/
theorem undefinedOutput_claim_cex :
    ((GenericCircuitExecutor.new circUnwritten).run []).1 =
      .error (CircuitExecutionError.MemoryError
        (CircuitMemoryError.UninitializedSlot 0)) ∧
    ((GenericCircuitExecutor.new circUnwritten).run []).1 ≠
      .error (CircuitExecutionError.UndefinedOutput 5) :=
  ⟨rfl, by
    intro hcon
    have hval : (Except.error (CircuitExecutionError.MemoryError
        (CircuitMemoryError.UninitializedSlot 0)) :
          Except CircuitExecutionError (List (Nat × Bool))) =
        Except.error (CircuitExecutionError.UndefinedOutput 5) := by
      rw [← hcon]
      rfl
    simp at hval⟩

/-- C2 (amended): after the input writes and the circuit execution succeed,
the executor scans the declared outputs in order; past outputs whose indices
resolve and read successfully, an output id with no entry in the memory map
fails with UndefinedOutput(id), while a mapped id whose slot was never
written fails with the propagated memory error
MemoryError (UninitializedSlot idx). -/
theorem run_output_phase_amended {α : Type} (ex : GenericCircuitExecutor α)
    (binding : List (Nat × α)) (mem1 mem2 : CircuitMemory α)
    (pre : List Nat) (id : Nat) (rest : List Nat)
    (hlen : binding.length = ex.circuit.inputs.length)
    (hw : writeInputs ex.circuit binding ex.memory ex.circuit.inputs = (mem1, none))
    (hx : execComponents ex.circuit.components mem1 = (mem2, none))
    (houts : ex.circuit.outputs = pre ++ id :: rest)
    (hpre : ∀ j ∈ pre, ∃ idx v, alookup ex.circuit.memory_map j = some idx ∧
      mem2.read idx = .ok v) :
    (alookup ex.circuit.memory_map id = none →
      (ex.run binding).1 = .error (CircuitExecutionError.UndefinedOutput id)) ∧
    (∀ idx, alookup ex.circuit.memory_map id = some idx →
      mem2.wires[idx]? = some none →
      (ex.run binding).1 = .error (CircuitExecutionError.MemoryError
        (CircuitMemoryError.UninitializedSlot idx))) := by
  have hrun := run_eq_of_parts ex binding mem1 mem2 hlen hw hx
  constructor
  · intro hnone
    have hhead : readOutputs ex.circuit mem2 (id :: rest) =
        .error (.UndefinedOutput id) := by
      rw [readOutputs, hnone]
    have hall : readOutputs ex.circuit mem2 ex.circuit.outputs =
        .error (.UndefinedOutput id) := by
      rw [houts]
      exact readOutputs_append_of_error ex.circuit mem2 pre (id :: rest) _ hpre hhead
    rw [hrun, hall]
  · intro idx hidx hslot
    have hread : mem2.read idx = .error (.UninitializedSlot idx) := by
      unfold CircuitMemory.read
      rw [hslot]
    have hhead : readOutputs ex.circuit mem2 (id :: rest) =
        .error (.MemoryError (.UninitializedSlot idx)) := by
      rw [readOutputs, hidx]
      dsimp only
      rw [hread]
    have hall : readOutputs ex.circuit mem2 ex.circuit.outputs =
        .error (.MemoryError (.UninitializedSlot idx)) := by
      rw [houts]
      exact readOutputs_append_of_error ex.circuit mem2 pre (id :: rest) _ hpre hhead
    rw [hrun, hall]

/-- Witness for C2 (amended) at circUnwritten: output 5 maps to slot 0 which
the run never writes, so run() fails with MemoryError (UninitializedSlot 0). -/
theorem run_output_phase_amended_witness :
    ((GenericCircuitExecutor.new circUnwritten).run []).1 =
      .error (CircuitExecutionError.MemoryError
        (CircuitMemoryError.UninitializedSlot 0)) :=
  (run_output_phase_amended (GenericCircuitExecutor.new circUnwritten) []
    ⟨[none]⟩ ⟨[none]⟩ [] 5 [] rfl rfl rfl rfl (by simp)).2 0 rfl rfl

/-- C3 counterexample: outputs recorded by a failed add_component call still
satisfy later input checks, and outputs of a call that failed during input
checking do not. After gateBadOut is rejected (output 0 is a circuit input),
nothing was appended yet wire 1 passes a later input check; after gateBadIn
is rejected on input 9, wire 1 was never recorded and a later component
consuming it is rejected — both refuting the claim that the input check
tests being an output of a previously added component. -/
theorem addComponent_claim_cex :
    (builder1.components = [] ∧ 1 ∉ builder1.circuit_inputs ∧
      (builder1.add_component gate12).2 = none) ∧
    (builder2.components = [] ∧
      (builder2.add_component gate12).2 =
        some (CircuitBuilderError.TopologicalOrderError 1)) :=
  ⟨⟨rfl, by decide, rfl⟩, ⟨rfl, rfl⟩⟩

/-- C3 (amended): add_component fails with DisconnectedComponent on an empty
input or output list; otherwise it fails with TopologicalOrderError(i) at
the first input i that is neither in the builder's recorded component-output
set nor a declared circuit input; otherwise it fails at the first bad output
o, with OutputIsACircuitInput(o) if o is a declared circuit input and with
OutputsConnection(o) if o is in the recorded output set or repeats an
earlier output of the same component; it succeeds exactly when none of these
occur, and then the component is appended. -/
theorem addComponent_errors_amended {α : Type} (b : CircuitBuilder α) (c : Gate α) :
    ((c.inputs.isEmpty = true ∨ c.outputs.isEmpty = true) →
      b.add_component c = (b, some CircuitBuilderError.DisconnectedComponent)) ∧
    (∀ pre i post, c.outputs.isEmpty = false → c.inputs = pre ++ i :: post →
      (∀ j ∈ pre, j ∈ b.component_outputs ∨ j ∈ b.circuit_inputs) →
      i ∉ b.component_outputs → i ∉ b.circuit_inputs →
      (b.add_component c).2 = some (CircuitBuilderError.TopologicalOrderError i)) ∧
    (∀ pre o post, c.inputs.isEmpty = false → c.outputs = pre ++ o :: post →
      (∀ j ∈ c.inputs, j ∈ b.component_outputs ∨ j ∈ b.circuit_inputs) →
      (∀ p ∈ pre, p ∉ b.circuit_inputs ∧ p ∉ b.component_outputs) → pre.Nodup →
      ((o ∈ b.circuit_inputs →
         (b.add_component c).2 = some (CircuitBuilderError.OutputIsACircuitInput o)) ∧
       (o ∉ b.circuit_inputs → o ∈ b.component_outputs ∨ o ∈ pre →
         (b.add_component c).2 = some (CircuitBuilderError.OutputsConnection o)))) ∧
    ((b.add_component c).2 = none ↔
      (¬c.inputs.isEmpty = true ∧ ¬c.outputs.isEmpty = true ∧
       (∀ i ∈ c.inputs, i ∈ b.component_outputs ∨ i ∈ b.circuit_inputs) ∧
       outputsFresh b.circuit_inputs b.component_outputs c.outputs = true)) ∧
    ((b.add_component c).2 = none →
      (b.add_component c).1.components = b.components ++ [c]) := by
  refine ⟨?_, ?_, ?_, addComponent_none_iff b c, fun h => (addComponent_ok_state b c h).1⟩
  · intro hde
    rw [CircuitBuilder.add_component,
      if_pos (by rcases hde with h | h <;> simp [h])]
  · intro pre i post ho hsplit hpre hi1 hi2
    exact (addComponent_fail_input b c pre i post (by rw [ho]; simp)
      hsplit hpre hi1 hi2).1
  · intro pre o post hi hsplit hall hpre hnd
    exact (addComponent_fail_output b c pre o post (by rw [hi]; simp)
      hsplit hall hpre hnd).1

/-- Witness for C3 (amended): builder0 rejects gateBadIn with
TopologicalOrderError 9 at its first undriven input. -/
theorem addComponent_errors_amended_witness :
    (builder0.add_component gateBadIn).2 =
      some (CircuitBuilderError.TopologicalOrderError 9) :=
  (addComponent_errors_amended builder0 gateBadIn).2.1 [0] 9 [] rfl rfl
    (by decide) (by decide) (by decide)

/-- C5 counterexample: an executor over the degenerate circuit with no
inputs, outputs or components (constructible through the public circuit
constructor) runs successfully twice on the same memory, refuting the claim
for every executor. -/
theorem second_run_claim_cex :
    ((GenericCircuitExecutor.new circEmpty).run []).1 = .ok [] ∧
    ((((GenericCircuitExecutor.new circEmpty).run []).2).run []).1 = .ok [] :=
  ⟨rfl, rfl⟩

/-- C5 (amended): provided the circuit declares at least one input and its
components never erase written memory (as any component using the write-once
Memory API does), after a successful run() the next run() on the same
executor fails on the first input write with the already-written error
RewriteAttempt — so at most one successful run is possible per freshly
allocated memory. -/
theorem second_run_rewrite_amended {α : Type} (ex : GenericCircuitExecutor α)
    (binding out : List (Nat × α))
    (hmono : ∀ g ∈ ex.circuit.components, GateMonotone g)
    (hne : ex.circuit.inputs ≠ [])
    (hok : (ex.run binding).1 = .ok out) :
    ∃ idx, (((ex.run binding).2).run binding).1 =
      .error (CircuitExecutionError.MemoryError
        (CircuitMemoryError.RewriteAttempt idx)) := by
  obtain ⟨hlen, mem1, mem2, hw, hx, hro, hex2⟩ := run_ok_parts ex binding out hok
  obtain ⟨i0, restIns, hins⟩ : ∃ a l, ex.circuit.inputs = a :: l := by
    cases hx2 : ex.circuit.inputs with
    | nil => exact absurd hx2 hne
    | cons a l => exact ⟨a, l, rfl⟩
  rw [hins] at hw
  obtain ⟨v, idx, memA, hb, hm, hwr, hstep⟩ :=
    writeInputs_ok_cons ex.circuit binding ex.memory i0 restIns (by rw [hw])
  have hocc1 : memA.wires[idx]? = some (some v) := by
    have h2 := (write_ok_state ex.memory idx v (by rw [hwr])).2
    rw [hwr] at h2
    exact h2
  have hocc2 : mem1.wires[idx]? = some (some v) := by
    have h3 := writeInputs_preserves ex.circuit binding restIns memA idx v hocc1
    have h4 : writeInputs ex.circuit binding memA restIns = (mem1, none) := by
      rw [← hstep, hw]
    rw [h4] at h3
    exact h3
  have hocc3 : mem2.wires[idx]? = some (some v) := by
    have h5 := execComponents_preserves ex.circuit.components mem1 hmono idx v hocc2
    rw [hx] at h5
    exact h5
  refine ⟨idx, ?_⟩
  rw [hex2]
  have hw2 : mem2.write idx v = (mem2, some (CircuitMemoryError.RewriteAttempt idx)) :=
    write_eq_occupied mem2 idx v v hocc3
  have hwi2 : writeInputs ex.circuit binding mem2 (i0 :: restIns) =
      (mem2, some (CircuitExecutionError.MemoryError
        (CircuitMemoryError.RewriteAttempt idx))) :=
    writeInputs_cons_writeErr ex.circuit binding mem2 mem2 i0 restIns v idx _ hb hm hw2
  have hrun2 := run_eq_write_error ({ ex with memory := mem2 }) binding mem2
    (CircuitExecutionError.MemoryError (CircuitMemoryError.RewriteAttempt idx))
    (by show binding.length = ex.circuit.inputs.length; exact hlen)
    (by show writeInputs ex.circuit binding mem2 ex.circuit.inputs = _
        rw [hins]
        exact hwi2)
  rw [hrun2]

/-- Witness for C5 (amended) at circ01: the first run succeeds with output
[(1, true)], and the second run on the same executor fails with a
RewriteAttempt memory error. -/
theorem second_run_rewrite_amended_witness :
    ∃ idx, ((((GenericCircuitExecutor.new circ01).run [(0, false)]).2).run
        [(0, false)]).1 =
      .error (CircuitExecutionError.MemoryError
        (CircuitMemoryError.RewriteAttempt idx)) :=
  second_run_rewrite_amended (GenericCircuitExecutor.new circ01) [(0, false)]
    [(1, true)]
    (by intro g hg
        have hgeq : g = gate01 := by
          simpa [GenericCircuitExecutor.new, circ01] using hg
        rw [hgeq]
        exact gate01_monotone)
    (by simp [GenericCircuitExecutor.new, circ01])
    rfl

end Claims

end SimCircuit
